import Mathlib

/-!
Verification of the `cpplargeringbuffer` large ring buffer
(src/include/cpplargeringbuffer/cpplargeringbuffer.hpp, version 1.1.0).

The C++ class `large_ring_buffer<value_type, clear_handler_type>` is modelled
as a Lean structure with the same fields.  Segments (`std::vector<value_type>`)
are modelled as `List α`: the empty list is an unallocated segment, a
materialized segment has length `m_segment_size` (the C++ code only ever
resizes a segment to exactly `m_segment_size`).  The clear handler is a
function `ch : α → α` applied in place.  `size_t` arithmetic is `Nat`
(no subtraction in the source can underflow on the paths modelled; the
wrap-arounds of the circular indices are written exactly as in the source).
Mutating member functions become functions `large_ring_buffer α → large_ring_buffer α`.
The non-const `get_item` allocates the addressed segment on demand; this side
effect is modelled by `materialize`.
-/

namespace cpplargeringbuffer

/-- List helper: reading an out-of-range index with `getD` gives the default. -/
theorem getD_of_le {β : Type} (l : List β) (i : Nat) (d : β) (h : l.length ≤ i) :
    l.getD i d = d := by
  induction l generalizing i with
  | nil => simp [List.getD]
  | cons a t ih =>
    cases i with
    | zero => simp at h
    | succ j =>
      simp only [List.getD, List.get?] at *
      exact ih j (by simpa using h)

/-- List helper: `set` then `getD` at the same index gives the new value when in
range, and the default when out of range. -/
theorem getD_set_self {β : Type} (l : List β) (i : Nat) (x d : β) :
    (l.set i x).getD i d = if i < l.length then x else d := by
  induction l generalizing i with
  | nil => simp [List.getD]
  | cons a t ih =>
    cases i with
    | zero => simp [List.getD]
    | succ j =>
      show (t.set j x).getD j d = _
      rw [ih j]
      simp only [List.length_cons]
      by_cases h : j < t.length
      · rw [if_pos h, if_pos (by omega)]
      · rw [if_neg h, if_neg (by omega)]

/-- List helper: `set` then `getD` at a different index is unchanged. -/
theorem getD_set_ne {β : Type} (l : List β) (i j : Nat) (x : β) (d : β) (h : i ≠ j) :
    (l.set i x).getD j d = l.getD j d := by
  induction l generalizing i j with
  | nil => simp
  | cons a t ih =>
    cases i with
    | zero =>
      cases j with
      | zero => exact absurd rfl h
      | succ j' => simp [List.getD]
    | succ i' =>
      cases j with
      | zero => simp [List.getD]
      | succ j' =>
        simp only [List.set, List.getD, List.get?]
        exact ih i' j' (fun hc => h (by rw [hc]))

/-- List helper: `getD` on `replicate`. -/
theorem getD_replicate {β : Type} (n i : Nat) (a d : β) (h : i < n) :
    (List.replicate n a).getD i d = a := by
  induction n generalizing i with
  | zero => omega
  | succ m ih =>
    cases i with
    | zero => simp [List.getD]
    | succ j =>
      simp only [List.replicate, List.getD, List.get?]
      exact ih j (by omega)

/-- List helper: how `countP` changes under `set` at an in-range index. -/
theorem countP_set {β : Type} (p : β → Bool) (l : List β) (i : Nat) (x : β)
    (h : i < l.length) :
    (l.set i x).countP p + (if p (l.getD i x) then 1 else 0)
      = l.countP p + (if p x then 1 else 0) := by
  induction l generalizing i with
  | nil => simp at h
  | cons a t ih =>
    cases i with
    | zero =>
      simp only [List.set, List.getD, List.get?, List.countP_cons, Option.getD_some]
      by_cases hpa : p a <;> by_cases hpx : p x <;> simp [hpa, hpx]
    | succ j =>
      simp only [List.set, List.getD, List.get?_eq_getElem?, List.countP_cons]
      have := ih j (by simpa using h)
      simp only [List.getD, List.get?_eq_getElem?] at this
      by_cases hpa : p a <;> simp [hpa] <;> omega

/--
The C++ class `large_ring_buffer` (cpplargeringbuffer.hpp, lines 136..913).
Field names follow the source members; `m_segments` is the
`std::vector<std::vector<value_type>>` of segments.
-/
structure large_ring_buffer (α : Type) where
  m_segments : List (List α)
  m_start_index : Nat
  m_end_index : Nat
  m_max_num_items : Nat
  m_current_num_items : Nat
  m_segment_size : Nat
  m_max_size : Nat
  m_fixed_segment_allocation : Bool
deriving DecidableEq, Repr

/-- The default constructed buffer (line 142): all members default-initialized. -/
def default_buffer (α : Type) : large_ring_buffer α :=
  ⟨[], 0, 0, 0, 0, 0, 0, false⟩

variable {α : Type} [Inhabited α]

/-- Source `to_internal_index` (lines 718..726). -/
def to_internal_index (b : large_ring_buffer α) (index : Nat) : Nat :=
  let internal_index := b.m_start_index + index
  if internal_index ≥ b.m_max_size then internal_index - b.m_max_size
  else internal_index

/-- Source const `get_item` (lines 874..879): read the slot at an internal index.
An unallocated segment reads as `default` (the C++ code never reads one on a
valid state; reads through `getD` keep the model total). -/
def get_item (b : large_ring_buffer α) (internal_index : Nat) : α :=
  (b.m_segments.getD (internal_index / b.m_segment_size) []).getD
    (internal_index % b.m_segment_size) default

/-- The allocation side effect of the non-const `get_item` (lines 881..892):
if the addressed segment is empty it is resized to `m_segment_size`
default-constructed items. -/
def materialize (b : large_ring_buffer α) (internal_index : Nat) : large_ring_buffer α :=
  let segment_index := internal_index / b.m_segment_size
  if (b.m_segments.getD segment_index []).isEmpty then
    { b with m_segments :=
        b.m_segments.set segment_index (List.replicate b.m_segment_size default) }
  else b

/-- Writing through the reference returned by the non-const `get_item`
(lines 881..892): allocate the segment if needed, then store `v` in the slot. -/
def set_item (b : large_ring_buffer α) (internal_index : Nat) (v : α) : large_ring_buffer α :=
  let b1 := materialize b internal_index
  let segment_index := internal_index / b1.m_segment_size
  let item_index := internal_index % b1.m_segment_size
  { b1 with m_segments :=
      b1.m_segments.set segment_index ((b1.m_segments.getD segment_index []).set item_index v) }

/-- Source `clear_handler_type::clear(get_item(i))`: apply the clear handler to
the slot in place. -/
def clear_at (ch : α → α) (b : large_ring_buffer α) (internal_index : Nat) :
    large_ring_buffer α :=
  set_item b internal_index (ch (get_item b internal_index))

/-- Source `increment_start_index` (lines 728..736). -/
def increment_start_index (b : large_ring_buffer α) : large_ring_buffer α :=
  let s := b.m_start_index + 1
  { b with m_start_index := if s = b.m_max_size then 0 else s }

/-- Source `decrement_start_index` (lines 738..749). -/
def decrement_start_index (b : large_ring_buffer α) : large_ring_buffer α :=
  { b with m_start_index :=
      if b.m_start_index = 0 then b.m_max_size - 1 else b.m_start_index - 1 }

/-- Source `increment_end_index` (lines 751..759). -/
def increment_end_index (b : large_ring_buffer α) : large_ring_buffer α :=
  let e := b.m_end_index + 1
  { b with m_end_index := if e = b.m_max_size then 0 else e }

/-- Source `decrement_end_index` (lines 761..771). -/
def decrement_end_index (b : large_ring_buffer α) : large_ring_buffer α :=
  { b with m_end_index :=
      if b.m_end_index = 0 then b.m_max_size - 1 else b.m_end_index - 1 }

/-- Source `before_end_index` (lines 773..782). -/
def before_end_index (b : large_ring_buffer α) : Nat :=
  if b.m_end_index = 0 then b.m_max_size - 1 else b.m_end_index - 1

/-- Source `decrement_segment_start` (lines 796..806). -/
def decrement_segment_start (segment_start segment_count : Nat) : Nat :=
  if segment_start = 0 then segment_count - 1 else segment_start - 1

/-- Source `increment_segment_end` (lines 808..815). -/
def increment_segment_end (segment_end segment_count : Nat) : Nat :=
  if segment_end + 1 = segment_count then 0 else segment_end + 1

/-- Source `can_remove_segments` (lines 817..822). -/
def can_remove_segments (b : large_ring_buffer α) : Bool :=
  decide (b.m_segment_size < b.m_max_size - b.m_current_num_items)

/-- Source `remove_unused_segments_front` (lines 824..847).  The segment kept
adjacent to the start is skipped; then at most one further segment is freed:
the `while` loop clears `segment` through a fixed reference, so its condition
`!segment.empty()` is false after the first iteration and `segment_index`
never changes. -/
def remove_unused_segments_front (b : large_ring_buffer α) : large_ring_buffer α :=
  if can_remove_segments b then
    let segment_count := b.m_max_size / b.m_segment_size
    let end_segment_index := b.m_end_index / b.m_segment_size
    let i1 := decrement_segment_start (b.m_start_index / b.m_segment_size) segment_count
    if i1 ≠ end_segment_index ∧ (b.m_segments.getD i1 []).isEmpty = false then
      let i2 := decrement_segment_start i1 segment_count
      if i2 ≠ end_segment_index ∧ (b.m_segments.getD i2 []).isEmpty = false then
        { b with m_segments := b.m_segments.set i2 [] }
      else b
    else b
  else b

/-- Source `remove_unused_segments_back` (lines 849..872), symmetric to
`remove_unused_segments_front`. -/
def remove_unused_segments_back (b : large_ring_buffer α) : large_ring_buffer α :=
  if can_remove_segments b then
    let segment_count := b.m_max_size / b.m_segment_size
    let start_segment_index := b.m_start_index / b.m_segment_size
    let i1 := increment_segment_end (b.m_end_index / b.m_segment_size) segment_count
    if i1 ≠ start_segment_index ∧ (b.m_segments.getD i1 []).isEmpty = false then
      let i2 := increment_segment_end i1 segment_count
      if i2 ≠ start_segment_index ∧ (b.m_segments.getD i2 []).isEmpty = false then
        { b with m_segments := b.m_segments.set i2 [] }
      else b
    else b
  else b

/-- Source `extend_back` (lines 558..585).  Returns the new state together
with the internal index of the slot whose reference is returned. -/
def extend_back (ch : α → α) (b : large_ring_buffer α) : large_ring_buffer α × Nat :=
  if b.m_current_num_items = b.m_max_size then
    let slot := b.m_start_index
    let b1 := clear_at ch b slot
    let b2 := increment_end_index (increment_start_index b1)
    (b2, slot)
  else
    let b1 := increment_end_index b
    let slot := before_end_index b1
    let b2 := materialize b1 slot
    if b2.m_current_num_items = b2.m_max_num_items then
      (increment_start_index (clear_at ch b2 b2.m_start_index), slot)
    else
      ({ b2 with m_current_num_items := b2.m_current_num_items + 1 }, slot)

/-- Source `extend_front` (lines 592..619), symmetric to `extend_back`. -/
def extend_front (ch : α → α) (b : large_ring_buffer α) : large_ring_buffer α × Nat :=
  if b.m_current_num_items = b.m_max_size then
    let slot := before_end_index b
    let b1 := clear_at ch b slot
    let b2 := decrement_end_index (decrement_start_index b1)
    (b2, slot)
  else
    let b1 := decrement_start_index b
    let slot := b1.m_start_index
    let b2 := materialize b1 slot
    if b2.m_current_num_items = b2.m_max_num_items then
      (decrement_end_index (clear_at ch b2 (before_end_index b2)), slot)
    else
      ({ b2 with m_current_num_items := b2.m_current_num_items + 1 }, slot)

/-- Source `push_back` (lines 702..705): `extend_back() = item`. -/
def push_back (ch : α → α) (b : large_ring_buffer α) (v : α) : large_ring_buffer α :=
  let r := extend_back ch b
  set_item r.1 r.2 v

/-- Source `push_front` (lines 712..715): `extend_front() = item`. -/
def push_front (ch : α → α) (b : large_ring_buffer α) (v : α) : large_ring_buffer α :=
  let r := extend_front ch b
  set_item r.1 r.2 v

/-- Source `pop_back` (lines 625..635). -/
def pop_back (ch : α → α) (b : large_ring_buffer α) : large_ring_buffer α :=
  let b1 := clear_at ch b (before_end_index b)
  let b2 := decrement_end_index b1
  let b3 := { b2 with m_current_num_items := b2.m_current_num_items - 1 }
  if b3.m_fixed_segment_allocation = false ∧ b3.m_end_index % b3.m_segment_size = 0 then
    remove_unused_segments_back b3
  else b3

/-- Source `pop_front` (lines 641..651). -/
def pop_front (ch : α → α) (b : large_ring_buffer α) : large_ring_buffer α :=
  let b1 := clear_at ch b b.m_start_index
  let b2 := increment_start_index b1
  let b3 := { b2 with m_current_num_items := b2.m_current_num_items - 1 }
  if b3.m_fixed_segment_allocation = false ∧ b3.m_start_index % b3.m_segment_size = 0 then
    remove_unused_segments_front b3
  else b3

/-- Source `front` const (lines 690..695). -/
def front (b : large_ring_buffer α) : α :=
  get_item b b.m_start_index

/-- Source `back` const (lines 679..684). -/
def back (b : large_ring_buffer α) : α :=
  get_item b (before_end_index b)

/-- Source `size` (lines 338..349), asserts dropped. -/
def size (b : large_ring_buffer α) : Nat :=
  b.m_current_num_items

/-- Source `empty` (lines 355..358). -/
def empty (b : large_ring_buffer α) : Bool :=
  decide (b.m_current_num_items = 0)

/-- Source `full` (lines 364..367): `m_max_size && m_current_num_items == m_max_num_items`. -/
def full (b : large_ring_buffer α) : Bool :=
  decide (b.m_max_size ≠ 0) && decide (b.m_current_num_items = b.m_max_num_items)

/-- Source `get_used_segments` (lines 404..415): count of allocated segments. -/
def get_used_segments (b : large_ring_buffer α) : Nat :=
  b.m_segments.countP (fun segment => !segment.isEmpty)

/-- Source bounds-checked `at` (lines 527..535): throws `std::range_error` when
the index is out of bounds, otherwise materializes the segment (non-const
`get_item`) and returns the item.  The result pairs the post state with the
outcome. -/
def at_item (b : large_ring_buffer α) (index : Nat) :
    large_ring_buffer α × Except String α :=
  if index ≥ b.m_current_num_items then
    (b, Except.error "Ring buffer index out of bounds.")
  else
    let internal_index := to_internal_index b index
    let b1 := materialize b internal_index
    (b1, Except.ok (get_item b1 internal_index))

/-- Source `operator[]` const (lines 515..519): the item at a logical index. -/
def index_get (b : large_ring_buffer α) (index : Nat) : α :=
  get_item b (to_internal_index b index)

/-- Source `preallocate_segments` (lines 894..903): every segment whose size is
not `m_segment_size` is resized to it (`std::vector::resize` keeps the prefix
and default-constructs the rest). -/
def preallocate_segments (b : large_ring_buffer α) : large_ring_buffer α :=
  { b with m_segments := b.m_segments.map (fun segment =>
      if segment.length = b.m_segment_size then segment
      else (segment ++ List.replicate (b.m_segment_size - segment.length) default).take
        b.m_segment_size) }

/-- The `while (maximum_number_of_items < m_current_num_items) pop_back();` loop
at the head of `change_configuration` (lines 205..208): each `pop_back`
decrements `m_current_num_items` by exactly one, so the loop runs
`m_current_num_items - maximum_number_of_items` times. -/
def iterate_pop_back (ch : α → α) : Nat → large_ring_buffer α → large_ring_buffer α
  | 0, b => b
  | n + 1, b => iterate_pop_back ch n (pop_back ch b)

/-- The segment moving loop of `change_configuration` (lines 262..280):
`new_segments[new_segment_index].swap(m_segments[segment_index])` repeated,
walking `segment_index` circularly until `segment_index_end`.  Writes past the
end of `new_segments` are out-of-bounds in C++ (undefined behavior); in the
model `List.set` out of range drops the write.  Returns the drained old
segment vector, the new segment vector and the final `new_segment_index`.
Fuel bounds the loop; `m_segments.size() + 1` steps always suffice to reach
`segment_index_end` when it is a reachable index. -/
def move_segments_loop : Nat → List (List α) → List (List α) → Nat → Nat → Nat →
    List (List α) × List (List α) × Nat
  | 0, old, acc, _, _, ni => (old, acc, ni)
  | fuel + 1, old, acc, segment_index, segment_index_end, ni =>
    let acc1 := acc.set ni (old.getD segment_index [])
    let old1 := old.set segment_index []
    if segment_index = segment_index_end then (old1, acc1, ni + 1)
    else
      let si := segment_index + 1
      let si := if si ≥ old.length then 0 else si
      move_segments_loop fuel old1 acc1 si segment_index_end (ni + 1)

/-- The `fixed_segment_allocation` branch of `change_configuration`
(lines 281..293): keep old unused segments by swapping them into the
remaining new slots in order, stopping when the new vector is full. -/
def keep_old_segments : List (List α) → List (List α) → Nat → List (List α)
  | [], acc, _ => acc
  | segment :: rest, acc, ni =>
    if ni ≥ acc.length then acc
    else keep_old_segments rest (acc.set ni segment) (ni + 1)

/-- Source `change_configuration` (lines 202..307).  `sizeof_value` stands for
`sizeof(value_type)` in the segment-size heuristic. -/
def change_configuration (sizeof_value : Nat) (ch : α → α) (b : large_ring_buffer α)
    (maximum_number_of_items : Nat) (fixed_segment_allocation preallocate : Bool) :
    large_ring_buffer α :=
  let b := iterate_pop_back ch (b.m_current_num_items - maximum_number_of_items) b
  let new_segment_size :=
    if b.m_segment_size ≠ 0 then b.m_segment_size
    else if maximum_number_of_items ≥ 100000000 ∧ sizeof_value * 10000 ≤ 1048576 then 10000
    else if maximum_number_of_items ≥ 1000000 ∧ sizeof_value * 1000 ≤ 1048576 then 1000
    else if maximum_number_of_items ≥ 10000 ∧ sizeof_value * 100 ≤ 1048576 then 100
    else 10
  let new_number_of_segments := maximum_number_of_items / new_segment_size +
    (if maximum_number_of_items % new_segment_size ≠ 0 then 1 else 0)
  let b :=
    if new_number_of_segments ≠ b.m_segments.length ∨
        b.m_fixed_segment_allocation ≠ fixed_segment_allocation then
      if new_number_of_segments = 0 then
        { b with m_segments := [], m_start_index := 0, m_end_index := 0 }
      else if b.m_segments.isEmpty then
        { b with m_segments := List.replicate new_number_of_segments [],
                 m_start_index := 0, m_end_index := 0 }
      else
        let moved :=
          if b.m_current_num_items ≠ 0 then
            move_segments_loop (b.m_segments.length + 1) b.m_segments
              (List.replicate new_number_of_segments [])
              (b.m_start_index / new_segment_size)
              (b.m_end_index / new_segment_size) 0
          else (b.m_segments, List.replicate new_number_of_segments [], 0)
        let new_segments :=
          if fixed_segment_allocation then keep_old_segments moved.1 moved.2.1 moved.2.2
          else moved.2.1
        { b with m_segments := new_segments,
                 m_start_index := b.m_start_index % new_segment_size,
                 m_end_index := b.m_start_index % new_segment_size + b.m_current_num_items }
    else b
  let b := { b with m_fixed_segment_allocation := fixed_segment_allocation,
                    m_max_num_items := maximum_number_of_items,
                    m_segment_size := new_segment_size,
                    m_max_size := new_segment_size * new_number_of_segments }
  if preallocate then preallocate_segments b else b

/-- Source `discard_and_change_configuration` (lines 464..497).  The Boolean of
the result is `true` when the call throws `std::invalid_argument`; the state
component is the state of the object after the call either way (the members
are wiped before the validity check). -/
def discard_and_change_configuration (_b : large_ring_buffer α)
    (number_of_segments segment_size maximum_number_of_items : Nat)
    (fixed_segment_allocation preallocate : Bool) :
    large_ring_buffer α × Bool :=
  let b0 : large_ring_buffer α := ⟨[], 0, 0, 0, 0, 0, 0, fixed_segment_allocation⟩
  if segment_size = 0 ∨ maximum_number_of_items = 0 then
    (b0, false)
  else
    let n := if number_of_segments = 0 then
        maximum_number_of_items / segment_size +
          (if maximum_number_of_items % segment_size ≠ 0 then 1 else 0)
      else number_of_segments
    if maximum_number_of_items > n * segment_size then (b0, true)
    else
      let b1 := { b0 with m_segment_size := segment_size,
                          m_segments := List.replicate n ([] : List α),
                          m_max_size := n * segment_size,
                          m_max_num_items := maximum_number_of_items }
      (if preallocate then preallocate_segments b1 else b1, false)

/-!  Basic facts about the model: which fields each primitive touches, how
`get_item` interacts with `materialize` and `set_item`, and the structural
well-formedness invariant of reachable configured states. -/

/-- Reading `getD` from a `replicate` of the default is the default at every
index, in or out of range. -/
theorem getD_replicate_default {β : Type} (n i : Nat) (d : β) :
    (List.replicate n d).getD i d = d := by
  by_cases h : i < n
  · exact getD_replicate n i d d h
  · exact getD_of_le _ _ _ (by simpa using Nat.le_of_not_lt h)
@[simp] theorem materialize_start (b : large_ring_buffer α) (ii : Nat) :
    (materialize b ii).m_start_index = b.m_start_index := by
  unfold materialize; dsimp only; split <;> simp

@[simp] theorem materialize_end (b : large_ring_buffer α) (ii : Nat) :
    (materialize b ii).m_end_index = b.m_end_index := by
  unfold materialize; dsimp only; split <;> simp

@[simp] theorem materialize_max_num (b : large_ring_buffer α) (ii : Nat) :
    (materialize b ii).m_max_num_items = b.m_max_num_items := by
  unfold materialize; dsimp only; split <;> simp

@[simp] theorem materialize_current (b : large_ring_buffer α) (ii : Nat) :
    (materialize b ii).m_current_num_items = b.m_current_num_items := by
  unfold materialize; dsimp only; split <;> simp

@[simp] theorem materialize_segment_size (b : large_ring_buffer α) (ii : Nat) :
    (materialize b ii).m_segment_size = b.m_segment_size := by
  unfold materialize; dsimp only; split <;> simp

@[simp] theorem materialize_max_size (b : large_ring_buffer α) (ii : Nat) :
    (materialize b ii).m_max_size = b.m_max_size := by
  unfold materialize; dsimp only; split <;> simp

@[simp] theorem materialize_fixed (b : large_ring_buffer α) (ii : Nat) :
    (materialize b ii).m_fixed_segment_allocation = b.m_fixed_segment_allocation := by
  unfold materialize; dsimp only; split <;> simp

@[simp] theorem materialize_seg_length (b : large_ring_buffer α) (ii : Nat) :
    (materialize b ii).m_segments.length = b.m_segments.length := by
  unfold materialize; dsimp only; split <;> simp

@[simp] theorem set_item_start (b : large_ring_buffer α) (ii : Nat) (v : α) :
    (set_item b ii v).m_start_index = b.m_start_index := by
  simp [set_item]

@[simp] theorem set_item_end (b : large_ring_buffer α) (ii : Nat) (v : α) :
    (set_item b ii v).m_end_index = b.m_end_index := by
  simp [set_item]

@[simp] theorem set_item_max_num (b : large_ring_buffer α) (ii : Nat) (v : α) :
    (set_item b ii v).m_max_num_items = b.m_max_num_items := by
  simp [set_item]

@[simp] theorem set_item_current (b : large_ring_buffer α) (ii : Nat) (v : α) :
    (set_item b ii v).m_current_num_items = b.m_current_num_items := by
  simp [set_item]

@[simp] theorem set_item_segment_size (b : large_ring_buffer α) (ii : Nat) (v : α) :
    (set_item b ii v).m_segment_size = b.m_segment_size := by
  simp [set_item]

@[simp] theorem set_item_max_size (b : large_ring_buffer α) (ii : Nat) (v : α) :
    (set_item b ii v).m_max_size = b.m_max_size := by
  simp [set_item]

@[simp] theorem set_item_fixed (b : large_ring_buffer α) (ii : Nat) (v : α) :
    (set_item b ii v).m_fixed_segment_allocation = b.m_fixed_segment_allocation := by
  simp [set_item]

@[simp] theorem set_item_seg_length (b : large_ring_buffer α) (ii : Nat) (v : α) :
    (set_item b ii v).m_segments.length = b.m_segments.length := by
  simp [set_item]

/-- A segment other than the one addressed is untouched by `materialize`. -/
theorem materialize_getD_ne (b : large_ring_buffer α) (ii k : Nat)
    (hk : k ≠ ii / b.m_segment_size) :
    (materialize b ii).m_segments.getD k [] = b.m_segments.getD k [] := by
  by_cases h : (b.m_segments.getD (ii / b.m_segment_size) []).isEmpty
  · simp only [materialize]
    rw [if_pos h]
    exact getD_set_ne _ _ _ _ _ (fun hc => hk hc.symm)
  · simp only [materialize]
    rw [if_neg h]

/-- Reading inside the addressed segment through `getD … default` is unchanged
by `materialize`: an unallocated segment reads as `default` either way. -/
theorem materialize_getD_self_getD (b : large_ring_buffer α) (ii o : Nat) :
    ((materialize b ii).m_segments.getD (ii / b.m_segment_size) []).getD o default
      = (b.m_segments.getD (ii / b.m_segment_size) []).getD o default := by
  by_cases h : (b.m_segments.getD (ii / b.m_segment_size) []).isEmpty
  · have hnil : b.m_segments.getD (ii / b.m_segment_size) [] = [] := List.isEmpty_iff.mp h
    simp only [materialize]
    rw [if_pos h, getD_set_self, hnil]
    split
    · rw [getD_replicate_default]; simp [List.getD]
    · rfl
  · simp only [materialize]
    rw [if_neg h]

/-- `get_item` only depends on the segment vector and the segment size. -/
theorem get_item_congr (b b' : large_ring_buffer α)
    (h1 : b'.m_segments = b.m_segments) (h2 : b'.m_segment_size = b.m_segment_size) :
    ∀ jj, get_item b' jj = get_item b jj := by
  intro jj
  unfold get_item
  rw [h1, h2]

/-- `materialize` is invisible to `get_item`. -/
theorem get_item_materialize (b : large_ring_buffer α) (ii jj : Nat) :
    get_item (materialize b ii) jj = get_item b jj := by
  unfold get_item
  rw [materialize_segment_size]
  by_cases hsame : jj / b.m_segment_size = ii / b.m_segment_size
  · rw [hsame]
    exact materialize_getD_self_getD b ii (jj % b.m_segment_size)
  · rw [materialize_getD_ne b ii _ hsame]

/-- A segment other than the one addressed is untouched by `set_item`. -/
theorem set_item_getD_ne (b : large_ring_buffer α) (ii : Nat) (v : α) (k : Nat)
    (hk : k ≠ ii / b.m_segment_size) :
    (set_item b ii v).m_segments.getD k [] = b.m_segments.getD k [] := by
  simp only [set_item, materialize_segment_size]
  rw [getD_set_ne _ _ _ _ _ (fun hc => hk hc.symm)]
  exact materialize_getD_ne b ii k hk

/-- Writing a slot does not change any other slot. -/
theorem get_item_set_item_ne (b : large_ring_buffer α) (ii jj : Nat) (v : α)
    (h : ii / b.m_segment_size ≠ jj / b.m_segment_size ∨
         ii % b.m_segment_size ≠ jj % b.m_segment_size) :
    get_item (set_item b ii v) jj = get_item b jj := by
  unfold get_item
  rw [set_item_segment_size]
  by_cases hsame : jj / b.m_segment_size = ii / b.m_segment_size
  · have hoff : ii % b.m_segment_size ≠ jj % b.m_segment_size := by
      rcases h with h | h
      · exact absurd hsame.symm h
      · exact h
    rw [hsame]
    simp only [set_item, materialize_segment_size]
    rw [getD_set_self]
    split
    · rw [getD_set_ne _ _ _ _ _ hoff]
      exact materialize_getD_self_getD b ii (jj % b.m_segment_size)
    · rename_i hge
      have hle : b.m_segments.length ≤ ii / b.m_segment_size := by
        rw [materialize_seg_length] at hge; omega
      rw [getD_of_le _ _ _ hle]
  · rw [set_item_getD_ne b ii v _ hsame]

/-- Writing a slot then reading it back gives the written value, provided the
internal index addresses a real segment and every allocated segment has the
configured length. -/
theorem get_item_set_item_self (b : large_ring_buffer α) (ii : Nat) (v : α)
    (hss : 0 < b.m_segment_size)
    (hlen : ii / b.m_segment_size < b.m_segments.length)
    (hseg : ∀ s ∈ b.m_segments, s = [] ∨ s.length = b.m_segment_size) :
    get_item (set_item b ii v) ii = v := by
  have hseg1 : ((materialize b ii).m_segments.getD (ii / b.m_segment_size) []).length
      = b.m_segment_size := by
    by_cases h : (b.m_segments.getD (ii / b.m_segment_size) []).isEmpty
    · simp only [materialize]
      rw [if_pos h, getD_set_self, if_pos hlen]
      simp
    · simp only [materialize]
      rw [if_neg h]
      have hmem : b.m_segments.getD (ii / b.m_segment_size) [] ∈ b.m_segments := by
        rw [List.getD_eq_getElem?_getD, List.getElem?_eq_getElem hlen]
        exact List.getElem_mem hlen
      rcases hseg _ hmem with hnil | hl
      · rw [hnil] at h; simp at h
      · exact hl
  unfold get_item
  rw [set_item_segment_size]
  simp only [set_item, materialize_segment_size]
  rw [getD_set_self, if_pos (by rw [materialize_seg_length]; exact hlen)]
  rw [getD_set_self, if_pos (by rw [hseg1]; exact Nat.mod_lt _ hss)]

/-- Writing a slot preserves the segment-length invariant. -/
theorem set_item_seg_inv (b : large_ring_buffer α) (ii : Nat) (v : α)
    (hseg : ∀ s ∈ b.m_segments, s = [] ∨ s.length = b.m_segment_size) :
    ∀ s ∈ (set_item b ii v).m_segments, s = [] ∨ s.length = b.m_segment_size := by
  have hmat : ∀ s ∈ (materialize b ii).m_segments, s = [] ∨ s.length = b.m_segment_size := by
    intro s hs
    by_cases h : (b.m_segments.getD (ii / b.m_segment_size) []).isEmpty
    · simp only [materialize] at hs
      rw [if_pos h] at hs
      rcases List.mem_or_eq_of_mem_set hs with hs' | hs'
      · exact hseg s hs'
      · right; rw [hs']; simp
    · simp only [materialize] at hs
      rw [if_neg h] at hs
      exact hseg s hs
  intro s hs
  simp only [set_item, materialize_segment_size] at hs
  rcases List.mem_or_eq_of_mem_set hs with hs' | hs'
  · exact hmat s hs'
  · subst hs'
    rcases Nat.lt_or_ge (ii / b.m_segment_size) ((materialize b ii).m_segments.length)
      with hlt | hge
    · have hmem : (materialize b ii).m_segments.getD (ii / b.m_segment_size) [] ∈
          (materialize b ii).m_segments := by
        rw [List.getD_eq_getElem?_getD, List.getElem?_eq_getElem hlt]
        exact List.getElem_mem hlt
      rcases hmat _ hmem with hnil | hl
      · left; rw [hnil]; rfl
      · right; rw [List.length_set]; exact hl
    · left
      rw [getD_of_le _ _ _ hge]
      rfl
/-- The structural invariant of a configured buffer: segment size positive,
physical capacity consistent with the segment vector, circular indices in
range and consistent with the item count, logical capacity between the item
count and the physical capacity, and every allocated segment of full length. -/
def WF (b : large_ring_buffer α) : Prop :=
  0 < b.m_segment_size ∧
  b.m_max_size = b.m_segments.length * b.m_segment_size ∧
  b.m_start_index < b.m_max_size ∧
  b.m_end_index = (b.m_start_index + b.m_current_num_items) % b.m_max_size ∧
  b.m_current_num_items ≤ b.m_max_num_items ∧
  b.m_max_num_items ≤ b.m_max_size ∧
  ∀ s ∈ b.m_segments, s = [] ∨ s.length = b.m_segment_size

instance (b : large_ring_buffer Nat) : Decidable (WF b) := by
  unfold WF; infer_instance

/-- The source's wrap-around increment equals addition of one modulo the
capacity on in-range indices. -/
theorem wrap_inc_eq_mod (M x : Nat) (h : x < M) :
    (if x + 1 = M then 0 else x + 1) = (x + 1) % M := by
  by_cases he : x + 1 = M
  · simp [he]
  · rw [if_neg he, Nat.mod_eq_of_lt (by omega)]

/-- The source's wrap-around decrement equals addition of `M - 1` modulo `M`
on in-range indices. -/
theorem wrap_dec_eq_mod (M x : Nat) (h : x < M) :
    (if x = 0 then M - 1 else x - 1) = (x + (M - 1)) % M := by
  by_cases he : x = 0
  · subst he
    rw [if_pos rfl, Nat.mod_eq_of_lt (by omega)]
    omega
  · rw [if_neg he, Nat.mod_eq_sub_mod (by omega), Nat.mod_eq_of_lt (by omega)]
    omega

/-- Source `to_internal_index` computes `(start + i) mod capacity` whenever the
start index is in range and the logical index is at most the capacity. -/
theorem to_internal_index_eq_mod (b : large_ring_buffer α) (i : Nat)
    (h1 : b.m_start_index < b.m_max_size) (h2 : i < b.m_max_size) :
    to_internal_index b i = (b.m_start_index + i) % b.m_max_size := by
  unfold to_internal_index
  by_cases hge : b.m_start_index + i ≥ b.m_max_size
  · rw [if_pos hge, Nat.mod_eq_sub_mod hge, Nat.mod_eq_of_lt (by omega)]
  · rw [if_neg hge, Nat.mod_eq_of_lt (by omega)]

/-- Adding distinct in-range offsets to a common base gives distinct residues. -/
theorem mod_shift_inj (M a k j : Nat) (hk : k < M) (hj : j < M)
    (h : (a + k) % M = (a + j) % M) : k = j := by
  have hmod : Nat.ModEq M k j := Nat.ModEq.add_left_cancel' a h
  have := hmod
  unfold Nat.ModEq at this
  rwa [Nat.mod_eq_of_lt hk, Nat.mod_eq_of_lt hj] at this

@[simp] theorem increment_start_index_segments (b : large_ring_buffer α) :
    (increment_start_index b).m_segments = b.m_segments := rfl

@[simp] theorem increment_start_index_end (b : large_ring_buffer α) :
    (increment_start_index b).m_end_index = b.m_end_index := rfl

@[simp] theorem increment_start_index_current (b : large_ring_buffer α) :
    (increment_start_index b).m_current_num_items = b.m_current_num_items := rfl

@[simp] theorem increment_start_index_max_num (b : large_ring_buffer α) :
    (increment_start_index b).m_max_num_items = b.m_max_num_items := rfl

@[simp] theorem increment_start_index_segment_size (b : large_ring_buffer α) :
    (increment_start_index b).m_segment_size = b.m_segment_size := rfl

@[simp] theorem increment_start_index_max_size (b : large_ring_buffer α) :
    (increment_start_index b).m_max_size = b.m_max_size := rfl

@[simp] theorem increment_start_index_fixed (b : large_ring_buffer α) :
    (increment_start_index b).m_fixed_segment_allocation = b.m_fixed_segment_allocation := rfl

theorem increment_start_index_start (b : large_ring_buffer α) :
    (increment_start_index b).m_start_index
      = if b.m_start_index + 1 = b.m_max_size then 0 else b.m_start_index + 1 := rfl

@[simp] theorem decrement_start_index_segments (b : large_ring_buffer α) :
    (decrement_start_index b).m_segments = b.m_segments := rfl

@[simp] theorem decrement_start_index_end (b : large_ring_buffer α) :
    (decrement_start_index b).m_end_index = b.m_end_index := rfl

@[simp] theorem decrement_start_index_current (b : large_ring_buffer α) :
    (decrement_start_index b).m_current_num_items = b.m_current_num_items := rfl

@[simp] theorem decrement_start_index_max_num (b : large_ring_buffer α) :
    (decrement_start_index b).m_max_num_items = b.m_max_num_items := rfl

@[simp] theorem decrement_start_index_segment_size (b : large_ring_buffer α) :
    (decrement_start_index b).m_segment_size = b.m_segment_size := rfl

@[simp] theorem decrement_start_index_max_size (b : large_ring_buffer α) :
    (decrement_start_index b).m_max_size = b.m_max_size := rfl

@[simp] theorem decrement_start_index_fixed (b : large_ring_buffer α) :
    (decrement_start_index b).m_fixed_segment_allocation = b.m_fixed_segment_allocation := rfl

theorem decrement_start_index_start (b : large_ring_buffer α) :
    (decrement_start_index b).m_start_index
      = if b.m_start_index = 0 then b.m_max_size - 1 else b.m_start_index - 1 := rfl

@[simp] theorem increment_end_index_segments (b : large_ring_buffer α) :
    (increment_end_index b).m_segments = b.m_segments := rfl

@[simp] theorem increment_end_index_start (b : large_ring_buffer α) :
    (increment_end_index b).m_start_index = b.m_start_index := rfl

@[simp] theorem increment_end_index_current (b : large_ring_buffer α) :
    (increment_end_index b).m_current_num_items = b.m_current_num_items := rfl

@[simp] theorem increment_end_index_max_num (b : large_ring_buffer α) :
    (increment_end_index b).m_max_num_items = b.m_max_num_items := rfl

@[simp] theorem increment_end_index_segment_size (b : large_ring_buffer α) :
    (increment_end_index b).m_segment_size = b.m_segment_size := rfl

@[simp] theorem increment_end_index_max_size (b : large_ring_buffer α) :
    (increment_end_index b).m_max_size = b.m_max_size := rfl

@[simp] theorem increment_end_index_fixed (b : large_ring_buffer α) :
    (increment_end_index b).m_fixed_segment_allocation = b.m_fixed_segment_allocation := rfl

theorem increment_end_index_end (b : large_ring_buffer α) :
    (increment_end_index b).m_end_index
      = if b.m_end_index + 1 = b.m_max_size then 0 else b.m_end_index + 1 := rfl

@[simp] theorem decrement_end_index_segments (b : large_ring_buffer α) :
    (decrement_end_index b).m_segments = b.m_segments := rfl

@[simp] theorem decrement_end_index_start (b : large_ring_buffer α) :
    (decrement_end_index b).m_start_index = b.m_start_index := rfl

@[simp] theorem decrement_end_index_current (b : large_ring_buffer α) :
    (decrement_end_index b).m_current_num_items = b.m_current_num_items := rfl

@[simp] theorem decrement_end_index_max_num (b : large_ring_buffer α) :
    (decrement_end_index b).m_max_num_items = b.m_max_num_items := rfl

@[simp] theorem decrement_end_index_segment_size (b : large_ring_buffer α) :
    (decrement_end_index b).m_segment_size = b.m_segment_size := rfl

@[simp] theorem decrement_end_index_max_size (b : large_ring_buffer α) :
    (decrement_end_index b).m_max_size = b.m_max_size := rfl

@[simp] theorem decrement_end_index_fixed (b : large_ring_buffer α) :
    (decrement_end_index b).m_fixed_segment_allocation = b.m_fixed_segment_allocation := rfl

theorem decrement_end_index_end (b : large_ring_buffer α) :
    (decrement_end_index b).m_end_index
      = if b.m_end_index = 0 then b.m_max_size - 1 else b.m_end_index - 1 := rfl

/-- `materialize` preserves the segment-length invariant. -/
theorem materialize_seg_inv (b : large_ring_buffer α) (ii : Nat)
    (hseg : ∀ s ∈ b.m_segments, s = [] ∨ s.length = b.m_segment_size) :
    ∀ s ∈ (materialize b ii).m_segments, s = [] ∨ s.length = b.m_segment_size := by
  intro s hs
  by_cases h : (b.m_segments.getD (ii / b.m_segment_size) []).isEmpty
  · simp only [materialize] at hs
    rw [if_pos h] at hs
    rcases List.mem_or_eq_of_mem_set hs with hs' | hs'
    · exact hseg s hs'
    · right; rw [hs']; simp
  · simp only [materialize] at hs
    rw [if_neg h] at hs
    exact hseg s hs

/-- Distinct internal indices address a distinct segment or a distinct offset. -/
theorem div_mod_pair_ne (ii jj ss : Nat) (h : ii ≠ jj) :
    ii / ss ≠ jj / ss ∨ ii % ss ≠ jj % ss := by
  by_contra hc
  push_neg at hc
  obtain ⟨h1, h2⟩ := hc
  apply h
  calc ii = ss * (ii / ss) + ii % ss := (Nat.div_add_mod ii ss).symm
    _ = ss * (jj / ss) + jj % ss := by rw [h1, h2]
    _ = jj := Nat.div_add_mod jj ss

/-- An in-range internal index addresses a real segment. -/
theorem slot_div_lt (ii M len ss : Nat) (hM : M = len * ss) (hss : 0 < ss)
    (hii : ii < M) : ii / ss < len := by
  rw [Nat.div_lt_iff_lt_mul hss]
  omega

/-- The slot written by the non-eviction branch of `extend_back` is the old end
index: incrementing the end index and stepping one back returns to it. -/
theorem extend_back_slot_eq (b : large_ring_buffer α) :
    before_end_index (increment_end_index b) = b.m_end_index := by
  unfold before_end_index increment_end_index
  dsimp only
  by_cases h : b.m_end_index + 1 = b.m_max_size
  · rw [if_pos h, if_pos rfl]
    omega
  · rw [if_neg h, if_neg (by omega)]
    omega

/-- `push_back` on a buffer strictly below logical and physical capacity:
the end index advances, the item count grows by one, the new item sits in the
slot that was the old end index, and every other slot is untouched. -/
theorem push_back_grow_spec (ch : α → α) (b : large_ring_buffer α) (v : α)
    (hseg : ∀ s ∈ b.m_segments, s = [] ∨ s.length = b.m_segment_size)
    (hss : 0 < b.m_segment_size)
    (hM : b.m_max_size = b.m_segments.length * b.m_segment_size)
    (hend : b.m_end_index < b.m_max_size)
    (hne : b.m_current_num_items ≠ b.m_max_size)
    (hnf : b.m_current_num_items ≠ b.m_max_num_items) :
    (push_back ch b v).m_start_index = b.m_start_index ∧
    (push_back ch b v).m_end_index = (b.m_end_index + 1) % b.m_max_size ∧
    (push_back ch b v).m_current_num_items = b.m_current_num_items + 1 ∧
    (push_back ch b v).m_max_num_items = b.m_max_num_items ∧
    (push_back ch b v).m_max_size = b.m_max_size ∧
    (push_back ch b v).m_segment_size = b.m_segment_size ∧
    (push_back ch b v).m_fixed_segment_allocation = b.m_fixed_segment_allocation ∧
    (push_back ch b v).m_segments.length = b.m_segments.length ∧
    (∀ s ∈ (push_back ch b v).m_segments, s = [] ∨ s.length = b.m_segment_size) ∧
    get_item (push_back ch b v) b.m_end_index = v ∧
    (∀ jj, jj ≠ b.m_end_index → get_item (push_back ch b v) jj = get_item b jj) := by
  have hpb : push_back ch b v
      = set_item { materialize (increment_end_index b) b.m_end_index with
          m_current_num_items := b.m_current_num_items + 1 } b.m_end_index v := by
    unfold push_back extend_back
    rw [if_neg hne]
    dsimp only
    rw [extend_back_slot_eq]
    rw [if_neg (by simp; exact hnf)]
    simp
  have hsegB : ∀ s ∈ (materialize (increment_end_index b) b.m_end_index).m_segments,
      s = [] ∨ s.length = b.m_segment_size := by
    have := materialize_seg_inv (increment_end_index b) b.m_end_index (by simpa using hseg)
    simpa using this
  have hgetB : ∀ jj, get_item { materialize (increment_end_index b) b.m_end_index with
      m_current_num_items := b.m_current_num_items + 1 } jj = get_item b jj := by
    intro jj
    have h1 : get_item { materialize (increment_end_index b) b.m_end_index with
        m_current_num_items := b.m_current_num_items + 1 } jj
        = get_item (materialize (increment_end_index b) b.m_end_index) jj :=
      get_item_congr _ _ (by simp) (by simp) jj
    rw [h1, get_item_materialize]
    exact get_item_congr _ _ (by simp) (by simp) jj
  rw [hpb]
  refine ⟨by simp, ?_, by simp, by simp, by simp, by simp, by simp, by simp, ?_, ?_, ?_⟩
  · simp [increment_end_index_end]
    rw [wrap_inc_eq_mod _ _ hend]
  · intro s hs
    have := set_item_seg_inv
      { materialize (increment_end_index b) b.m_end_index with
        m_current_num_items := b.m_current_num_items + 1 }
      b.m_end_index v (by simpa using hsegB) s hs
    simpa using this
  · refine get_item_set_item_self _ _ _ (by simpa using hss) ?_ (by simpa using hsegB)
    simp
    exact slot_div_lt _ _ _ _ hM hss hend
  · intro jj hjj
    have hpair := div_mod_pair_ne b.m_end_index jj b.m_segment_size (fun hc => hjj hc.symm)
    have h1 := get_item_set_item_ne
      { materialize (increment_end_index b) b.m_end_index with
        m_current_num_items := b.m_current_num_items + 1 }
      b.m_end_index jj v (by simpa using hpair)
    rw [h1, hgetB]

/-- `before_end_index` only depends on the end index and the capacity. -/
theorem before_end_index_congr (b b' : large_ring_buffer α)
    (h1 : b'.m_end_index = b.m_end_index) (h2 : b'.m_max_size = b.m_max_size) :
    before_end_index b' = before_end_index b := by
  unfold before_end_index
  rw [h1, h2]

/-- `before_end_index` stays inside the slot space. -/
theorem before_end_index_lt (b : large_ring_buffer α)
    (hend : b.m_end_index < b.m_max_size) :
    before_end_index b < b.m_max_size := by
  unfold before_end_index
  split <;> omega

/-- `before_end_index` in modular form, for an in-range end index. -/
theorem before_end_index_eq_mod (b : large_ring_buffer α)
    (hend : b.m_end_index < b.m_max_size) :
    before_end_index b = (b.m_end_index + (b.m_max_size - 1)) % b.m_max_size := by
  unfold before_end_index
  exact wrap_dec_eq_mod _ _ hend

/-- `push_back` on a buffer at physical capacity: the slot at the start index
is cleared and becomes the new back item, both circular indices advance by
one, and the item count does not change. -/
theorem push_back_evict_phys_spec (ch : α → α) (b : large_ring_buffer α) (v : α)
    (hseg : ∀ s ∈ b.m_segments, s = [] ∨ s.length = b.m_segment_size)
    (hss : 0 < b.m_segment_size)
    (hM : b.m_max_size = b.m_segments.length * b.m_segment_size)
    (hstart : b.m_start_index < b.m_max_size)
    (hend : b.m_end_index < b.m_max_size)
    (heq : b.m_current_num_items = b.m_max_size) :
    (push_back ch b v).m_start_index = (b.m_start_index + 1) % b.m_max_size ∧
    (push_back ch b v).m_end_index = (b.m_end_index + 1) % b.m_max_size ∧
    (push_back ch b v).m_current_num_items = b.m_current_num_items ∧
    (push_back ch b v).m_max_num_items = b.m_max_num_items ∧
    (push_back ch b v).m_max_size = b.m_max_size ∧
    (push_back ch b v).m_segment_size = b.m_segment_size ∧
    (push_back ch b v).m_segments.length = b.m_segments.length ∧
    (∀ s ∈ (push_back ch b v).m_segments, s = [] ∨ s.length = b.m_segment_size) ∧
    get_item (push_back ch b v) b.m_start_index = v ∧
    (∀ jj, jj ≠ b.m_start_index → get_item (push_back ch b v) jj = get_item b jj) := by
  have hpb : push_back ch b v
      = set_item (increment_end_index (increment_start_index
          (clear_at ch b b.m_start_index))) b.m_start_index v := by
    unfold push_back extend_back
    rw [if_pos heq]
  have hsegC : ∀ s ∈ (clear_at ch b b.m_start_index).m_segments,
      s = [] ∨ s.length = b.m_segment_size :=
    set_item_seg_inv b b.m_start_index (ch (get_item b b.m_start_index)) hseg
  have hD : ∀ s ∈ (increment_end_index (increment_start_index
      (clear_at ch b b.m_start_index))).m_segments,
      s = [] ∨ s.length = b.m_segment_size := by simpa using hsegC
  have hget1 : ∀ jj, get_item (increment_end_index (increment_start_index
      (clear_at ch b b.m_start_index))) jj = get_item (clear_at ch b b.m_start_index) jj :=
    fun jj => get_item_congr _ _ (by simp) (by simp) jj
  rw [hpb]
  refine ⟨?_, ?_, by simp [clear_at], by simp [clear_at], by simp [clear_at],
    by simp [clear_at], by simp [clear_at], ?_, ?_, ?_⟩
  · simp [clear_at, increment_start_index_start]
    exact wrap_inc_eq_mod _ _ hstart
  · simp [clear_at, increment_end_index_end]
    exact wrap_inc_eq_mod _ _ hend
  · intro s hs
    have := set_item_seg_inv _ b.m_start_index v (by simpa [clear_at] using hD) s hs
    simpa [clear_at] using this
  · refine get_item_set_item_self _ _ _ (by simpa [clear_at] using hss) ?_
      (by simpa [clear_at] using hD)
    simp [clear_at]
    exact slot_div_lt _ _ _ _ hM hss hstart
  · intro jj hjj
    have hpair := div_mod_pair_ne b.m_start_index jj b.m_segment_size (fun hc => hjj hc.symm)
    have h1 := get_item_set_item_ne (increment_end_index (increment_start_index
      (clear_at ch b b.m_start_index))) b.m_start_index jj v (by simpa [clear_at] using hpair)
    rw [h1, hget1]
    exact get_item_set_item_ne b b.m_start_index jj (ch (get_item b b.m_start_index)) hpair

/-- `push_back` on a buffer at logical but not physical capacity: the slot at
the start index is cleared in place (the logical front is evicted), the end
index advances, the new item lands in the slot at the old end index, and the
item count does not change. -/
theorem push_back_evict_log_spec (ch : α → α) (b : large_ring_buffer α) (v : α)
    (hseg : ∀ s ∈ b.m_segments, s = [] ∨ s.length = b.m_segment_size)
    (hss : 0 < b.m_segment_size)
    (hM : b.m_max_size = b.m_segments.length * b.m_segment_size)
    (hstart : b.m_start_index < b.m_max_size)
    (hend : b.m_end_index < b.m_max_size)
    (hne : b.m_current_num_items ≠ b.m_max_size)
    (hfull : b.m_current_num_items = b.m_max_num_items)
    (hse : b.m_start_index ≠ b.m_end_index) :
    (push_back ch b v).m_start_index = (b.m_start_index + 1) % b.m_max_size ∧
    (push_back ch b v).m_end_index = (b.m_end_index + 1) % b.m_max_size ∧
    (push_back ch b v).m_current_num_items = b.m_current_num_items ∧
    (push_back ch b v).m_max_num_items = b.m_max_num_items ∧
    (push_back ch b v).m_max_size = b.m_max_size ∧
    (push_back ch b v).m_segment_size = b.m_segment_size ∧
    (push_back ch b v).m_segments.length = b.m_segments.length ∧
    (∀ s ∈ (push_back ch b v).m_segments, s = [] ∨ s.length = b.m_segment_size) ∧
    get_item (push_back ch b v) b.m_end_index = v ∧
    get_item (push_back ch b v) b.m_start_index = ch (get_item b b.m_start_index) ∧
    (∀ jj, jj ≠ b.m_start_index → jj ≠ b.m_end_index →
      get_item (push_back ch b v) jj = get_item b jj) := by
  have hpb : push_back ch b v
      = set_item (increment_start_index (clear_at ch
          (materialize (increment_end_index b) b.m_end_index) b.m_start_index))
          b.m_end_index v := by
    unfold push_back extend_back
    rw [if_neg hne]
    dsimp only
    rw [extend_back_slot_eq]
    rw [if_pos (by simp; exact hfull)]
    simp
  have hgetB2 : ∀ jj, get_item (materialize (increment_end_index b) b.m_end_index) jj
      = get_item b jj := by
    intro jj
    rw [get_item_materialize]
    exact get_item_congr _ _ (by simp) (by simp) jj
  have hsegB2 : ∀ s ∈ (materialize (increment_end_index b) b.m_end_index).m_segments,
      s = [] ∨ s.length = b.m_segment_size := by
    have := materialize_seg_inv (increment_end_index b) b.m_end_index (by simpa using hseg)
    simpa using this
  have hclear : get_item (clear_at ch (materialize (increment_end_index b) b.m_end_index)
      b.m_start_index) b.m_start_index
      = ch (get_item b b.m_start_index) := by
    have h2 := get_item_set_item_self (materialize (increment_end_index b) b.m_end_index)
      b.m_start_index
      (ch (get_item (materialize (increment_end_index b) b.m_end_index) b.m_start_index))
      (by simpa using hss) (by simp; exact slot_div_lt _ _ _ _ hM hss hstart)
      (by simpa using hsegB2)
    rw [show clear_at ch (materialize (increment_end_index b) b.m_end_index) b.m_start_index
        = set_item (materialize (increment_end_index b) b.m_end_index) b.m_start_index
          (ch (get_item (materialize (increment_end_index b) b.m_end_index) b.m_start_index))
      from rfl]
    rw [h2, hgetB2]
  have hclear_ne : ∀ jj, jj ≠ b.m_start_index →
      get_item (clear_at ch (materialize (increment_end_index b) b.m_end_index)
        b.m_start_index) jj = get_item b jj := by
    intro jj hjj
    have hpair := div_mod_pair_ne b.m_start_index jj b.m_segment_size (fun hc => hjj hc.symm)
    have h1 := get_item_set_item_ne (materialize (increment_end_index b) b.m_end_index)
      b.m_start_index jj
      (ch (get_item (materialize (increment_end_index b) b.m_end_index) b.m_start_index))
      (by simpa using hpair)
    rw [show clear_at ch (materialize (increment_end_index b) b.m_end_index) b.m_start_index
        = set_item (materialize (increment_end_index b) b.m_end_index) b.m_start_index
          (ch (get_item (materialize (increment_end_index b) b.m_end_index) b.m_start_index))
      from rfl]
    rw [h1, hgetB2]
  have hsegC : ∀ s ∈ (clear_at ch (materialize (increment_end_index b) b.m_end_index)
      b.m_start_index).m_segments, s = [] ∨ s.length = b.m_segment_size := by
    have := set_item_seg_inv (materialize (increment_end_index b) b.m_end_index)
      b.m_start_index
      (ch (get_item (materialize (increment_end_index b) b.m_end_index) b.m_start_index))
      (by simpa using hsegB2)
    simpa using this
  have hgetX : ∀ jj, get_item (increment_start_index (clear_at ch
      (materialize (increment_end_index b) b.m_end_index) b.m_start_index)) jj
      = get_item (clear_at ch (materialize (increment_end_index b) b.m_end_index)
        b.m_start_index) jj :=
    fun jj => get_item_congr _ _ (by simp) (by simp) jj
  rw [hpb]
  refine ⟨?_, ?_, by simp [clear_at], by simp [clear_at], by simp [clear_at],
    by simp [clear_at], by simp [clear_at], ?_, ?_, ?_, ?_⟩
  · simp [clear_at, increment_start_index_start]
    exact wrap_inc_eq_mod _ _ hstart
  · simp [clear_at, increment_end_index_end]
    exact wrap_inc_eq_mod _ _ hend
  · intro s hs
    have := set_item_seg_inv _ b.m_end_index v (by simpa [clear_at] using hsegC) s hs
    simpa [clear_at] using this
  · refine get_item_set_item_self _ _ _ (by simpa [clear_at] using hss) ?_
      (by simpa [clear_at] using hsegC)
    simp [clear_at]
    exact slot_div_lt _ _ _ _ hM hss hend
  · have hpair := div_mod_pair_ne b.m_end_index b.m_start_index b.m_segment_size
      (fun hc => hse hc.symm)
    have h1 := get_item_set_item_ne (increment_start_index (clear_at ch
      (materialize (increment_end_index b) b.m_end_index) b.m_start_index))
      b.m_end_index b.m_start_index v (by simpa [clear_at] using hpair)
    rw [h1, hgetX, hclear]
  · intro jj hjs hje
    have hpair := div_mod_pair_ne b.m_end_index jj b.m_segment_size (fun hc => hje hc.symm)
    have h1 := get_item_set_item_ne (increment_start_index (clear_at ch
      (materialize (increment_end_index b) b.m_end_index) b.m_start_index))
      b.m_end_index jj v (by simpa [clear_at] using hpair)
    rw [h1, hgetX, hclear_ne jj hjs]

/-- `push_front` on a buffer at physical capacity: the slot just before the
end index is cleared and becomes the new front item, both circular indices
retreat by one, and the item count does not change. -/
theorem push_front_evict_phys_spec (ch : α → α) (b : large_ring_buffer α) (v : α)
    (hseg : ∀ s ∈ b.m_segments, s = [] ∨ s.length = b.m_segment_size)
    (hss : 0 < b.m_segment_size)
    (hM : b.m_max_size = b.m_segments.length * b.m_segment_size)
    (hstart : b.m_start_index < b.m_max_size)
    (hend : b.m_end_index < b.m_max_size)
    (heq : b.m_current_num_items = b.m_max_size) :
    (push_front ch b v).m_start_index
      = (b.m_start_index + (b.m_max_size - 1)) % b.m_max_size ∧
    (push_front ch b v).m_end_index
      = (b.m_end_index + (b.m_max_size - 1)) % b.m_max_size ∧
    (push_front ch b v).m_current_num_items = b.m_current_num_items ∧
    (push_front ch b v).m_max_num_items = b.m_max_num_items ∧
    (push_front ch b v).m_max_size = b.m_max_size ∧
    (push_front ch b v).m_segment_size = b.m_segment_size ∧
    (push_front ch b v).m_segments.length = b.m_segments.length ∧
    (∀ s ∈ (push_front ch b v).m_segments, s = [] ∨ s.length = b.m_segment_size) ∧
    get_item (push_front ch b v) (before_end_index b) = v ∧
    (∀ jj, jj ≠ before_end_index b → get_item (push_front ch b v) jj = get_item b jj) := by
  have hbendlt : before_end_index b < b.m_max_size := before_end_index_lt b hend
  have hpf : push_front ch b v
      = set_item (decrement_end_index (decrement_start_index
          (clear_at ch b (before_end_index b)))) (before_end_index b) v := by
    unfold push_front extend_front
    rw [if_pos heq]
  have hsegC : ∀ s ∈ (clear_at ch b (before_end_index b)).m_segments,
      s = [] ∨ s.length = b.m_segment_size :=
    set_item_seg_inv b (before_end_index b) (ch (get_item b (before_end_index b))) hseg
  have hD : ∀ s ∈ (decrement_end_index (decrement_start_index
      (clear_at ch b (before_end_index b)))).m_segments,
      s = [] ∨ s.length = b.m_segment_size := by simpa using hsegC
  have hget1 : ∀ jj, get_item (decrement_end_index (decrement_start_index
      (clear_at ch b (before_end_index b)))) jj
      = get_item (clear_at ch b (before_end_index b)) jj :=
    fun jj => get_item_congr _ _ (by simp) (by simp) jj
  rw [hpf]
  refine ⟨?_, ?_, by simp [clear_at], by simp [clear_at], by simp [clear_at],
    by simp [clear_at], by simp [clear_at], ?_, ?_, ?_⟩
  · simp [clear_at, decrement_start_index_start]
    exact wrap_dec_eq_mod _ _ hstart
  · simp [clear_at, decrement_end_index_end]
    exact wrap_dec_eq_mod _ _ hend
  · intro s hs
    have := set_item_seg_inv _ (before_end_index b) v (by simpa [clear_at] using hD) s hs
    simpa [clear_at] using this
  · refine get_item_set_item_self _ _ _ (by simpa [clear_at] using hss) ?_
      (by simpa [clear_at] using hD)
    simp [clear_at]
    exact slot_div_lt _ _ _ _ hM hss hbendlt
  · intro jj hjj
    have hpair := div_mod_pair_ne (before_end_index b) jj b.m_segment_size
      (fun hc => hjj hc.symm)
    have h1 := get_item_set_item_ne (decrement_end_index (decrement_start_index
      (clear_at ch b (before_end_index b)))) (before_end_index b) jj v
      (by simpa [clear_at] using hpair)
    rw [h1, hget1]
    exact get_item_set_item_ne b (before_end_index b) jj
      (ch (get_item b (before_end_index b))) hpair

/-- `push_front` on a buffer at logical but not physical capacity: the slot
just before the end index is cleared in place (the logical back is evicted),
the start index retreats, the new item lands in the slot at the new start
index, and the item count does not change. -/
theorem push_front_evict_log_spec (ch : α → α) (b : large_ring_buffer α) (v : α)
    (hseg : ∀ s ∈ b.m_segments, s = [] ∨ s.length = b.m_segment_size)
    (hss : 0 < b.m_segment_size)
    (hM : b.m_max_size = b.m_segments.length * b.m_segment_size)
    (hstart : b.m_start_index < b.m_max_size)
    (hend : b.m_end_index < b.m_max_size)
    (hne : b.m_current_num_items ≠ b.m_max_size)
    (hfull : b.m_current_num_items = b.m_max_num_items)
    (hsb : (b.m_start_index + (b.m_max_size - 1)) % b.m_max_size ≠ before_end_index b) :
    (push_front ch b v).m_start_index
      = (b.m_start_index + (b.m_max_size - 1)) % b.m_max_size ∧
    (push_front ch b v).m_end_index
      = (b.m_end_index + (b.m_max_size - 1)) % b.m_max_size ∧
    (push_front ch b v).m_current_num_items = b.m_current_num_items ∧
    (push_front ch b v).m_max_num_items = b.m_max_num_items ∧
    (push_front ch b v).m_max_size = b.m_max_size ∧
    (push_front ch b v).m_segment_size = b.m_segment_size ∧
    (push_front ch b v).m_segments.length = b.m_segments.length ∧
    (∀ s ∈ (push_front ch b v).m_segments, s = [] ∨ s.length = b.m_segment_size) ∧
    get_item (push_front ch b v) ((b.m_start_index + (b.m_max_size - 1)) % b.m_max_size)
      = v ∧
    get_item (push_front ch b v) (before_end_index b)
      = ch (get_item b (before_end_index b)) ∧
    (∀ jj, jj ≠ (b.m_start_index + (b.m_max_size - 1)) % b.m_max_size →
      jj ≠ before_end_index b → get_item (push_front ch b v) jj = get_item b jj) := by
  have hbendlt : before_end_index b < b.m_max_size := before_end_index_lt b hend
  have hsd : (decrement_start_index b).m_start_index
      = (b.m_start_index + (b.m_max_size - 1)) % b.m_max_size := by
    rw [decrement_start_index_start]
    exact wrap_dec_eq_mod _ _ hstart
  have hsdlt : (decrement_start_index b).m_start_index < b.m_max_size := by
    rw [hsd]
    exact Nat.mod_lt _ (by omega)
  have hsb' : (decrement_start_index b).m_start_index ≠ before_end_index b := by
    rw [hsd]; exact hsb
  have hbe : before_end_index (materialize (decrement_start_index b)
      (decrement_start_index b).m_start_index) = before_end_index b :=
    before_end_index_congr _ _ (by simp) (by simp)
  have hpf : push_front ch b v
      = set_item (decrement_end_index (clear_at ch
          (materialize (decrement_start_index b) (decrement_start_index b).m_start_index)
          (before_end_index b)))
          (decrement_start_index b).m_start_index v := by
    unfold push_front extend_front
    rw [if_neg hne]
    dsimp only
    rw [if_pos (by simp; exact hfull)]
    rw [hbe]
  have hgetB2 : ∀ jj, get_item (materialize (decrement_start_index b)
      (decrement_start_index b).m_start_index) jj = get_item b jj := by
    intro jj
    rw [get_item_materialize]
    exact get_item_congr _ _ (by simp) (by simp) jj
  have hsegB2 : ∀ s ∈ (materialize (decrement_start_index b)
      (decrement_start_index b).m_start_index).m_segments,
      s = [] ∨ s.length = b.m_segment_size := by
    have := materialize_seg_inv (decrement_start_index b)
      (decrement_start_index b).m_start_index (by simpa using hseg)
    simpa using this
  have hclear : get_item (clear_at ch (materialize (decrement_start_index b)
      (decrement_start_index b).m_start_index) (before_end_index b)) (before_end_index b)
      = ch (get_item b (before_end_index b)) := by
    have h2 := get_item_set_item_self (materialize (decrement_start_index b)
      (decrement_start_index b).m_start_index) (before_end_index b)
      (ch (get_item (materialize (decrement_start_index b)
        (decrement_start_index b).m_start_index) (before_end_index b)))
      (by simpa using hss) (by simp; exact slot_div_lt _ _ _ _ hM hss hbendlt)
      (by simpa using hsegB2)
    rw [show clear_at ch (materialize (decrement_start_index b)
        (decrement_start_index b).m_start_index) (before_end_index b)
        = set_item (materialize (decrement_start_index b)
          (decrement_start_index b).m_start_index) (before_end_index b)
          (ch (get_item (materialize (decrement_start_index b)
            (decrement_start_index b).m_start_index) (before_end_index b)))
      from rfl]
    rw [h2, hgetB2]
  have hclear_ne : ∀ jj, jj ≠ before_end_index b →
      get_item (clear_at ch (materialize (decrement_start_index b)
        (decrement_start_index b).m_start_index) (before_end_index b)) jj
      = get_item b jj := by
    intro jj hjj
    have hpair := div_mod_pair_ne (before_end_index b) jj b.m_segment_size
      (fun hc => hjj hc.symm)
    have h1 := get_item_set_item_ne (materialize (decrement_start_index b)
      (decrement_start_index b).m_start_index) (before_end_index b) jj
      (ch (get_item (materialize (decrement_start_index b)
        (decrement_start_index b).m_start_index) (before_end_index b)))
      (by simpa using hpair)
    rw [show clear_at ch (materialize (decrement_start_index b)
        (decrement_start_index b).m_start_index) (before_end_index b)
        = set_item (materialize (decrement_start_index b)
          (decrement_start_index b).m_start_index) (before_end_index b)
          (ch (get_item (materialize (decrement_start_index b)
            (decrement_start_index b).m_start_index) (before_end_index b)))
      from rfl]
    rw [h1, hgetB2]
  have hsegC : ∀ s ∈ (clear_at ch (materialize (decrement_start_index b)
      (decrement_start_index b).m_start_index) (before_end_index b)).m_segments,
      s = [] ∨ s.length = b.m_segment_size := by
    have := set_item_seg_inv (materialize (decrement_start_index b)
      (decrement_start_index b).m_start_index) (before_end_index b)
      (ch (get_item (materialize (decrement_start_index b)
        (decrement_start_index b).m_start_index) (before_end_index b)))
      (by simpa using hsegB2)
    simpa using this
  have hgetX : ∀ jj, get_item (decrement_end_index (clear_at ch
      (materialize (decrement_start_index b) (decrement_start_index b).m_start_index)
      (before_end_index b))) jj
      = get_item (clear_at ch (materialize (decrement_start_index b)
        (decrement_start_index b).m_start_index) (before_end_index b)) jj :=
    fun jj => get_item_congr _ _ (by simp) (by simp) jj
  rw [hpf]
  refine ⟨?_, ?_, by simp [clear_at], by simp [clear_at], by simp [clear_at],
    by simp [clear_at], by simp [clear_at], ?_, ?_, ?_, ?_⟩
  · rw [set_item_start]
    simp [clear_at]
    exact hsd
  · simp [clear_at, decrement_end_index_end]
    exact wrap_dec_eq_mod _ _ hend
  · intro s hs
    have := set_item_seg_inv _ (decrement_start_index b).m_start_index v
      (by simpa [clear_at] using hsegC) s hs
    simpa [clear_at] using this
  · rw [← hsd]
    refine get_item_set_item_self _ _ _ (by simpa [clear_at] using hss) ?_
      (by simpa [clear_at] using hsegC)
    simp [clear_at]
    exact slot_div_lt _ _ _ _ hM hss hsdlt
  · have hpair := div_mod_pair_ne (decrement_start_index b).m_start_index
      (before_end_index b) b.m_segment_size hsb'
    have h1 := get_item_set_item_ne (decrement_end_index (clear_at ch
      (materialize (decrement_start_index b) (decrement_start_index b).m_start_index)
      (before_end_index b))) (decrement_start_index b).m_start_index (before_end_index b) v
      (by simpa [clear_at] using hpair)
    rw [h1, hgetX, hclear]
  · intro jj hjs hje
    have hpair := div_mod_pair_ne (decrement_start_index b).m_start_index jj
      b.m_segment_size (fun hc => hjs (by rw [← hsd]; exact hc.symm))
    have h1 := get_item_set_item_ne (decrement_end_index (clear_at ch
      (materialize (decrement_start_index b) (decrement_start_index b).m_start_index)
      (before_end_index b))) (decrement_start_index b).m_start_index jj v
      (by simpa [clear_at] using hpair)
    rw [h1, hgetX, hclear_ne jj hje]

/-- `push_back` never takes the item count above the logical capacity. -/
theorem push_back_current_le (ch : α → α) (b : large_ring_buffer α) (v : α)
    (h : b.m_current_num_items ≤ b.m_max_num_items) :
    (push_back ch b v).m_current_num_items ≤ b.m_max_num_items ∧
    (push_back ch b v).m_max_num_items = b.m_max_num_items := by
  unfold push_back extend_back
  by_cases h1 : b.m_current_num_items = b.m_max_size
  · rw [if_pos h1]
    dsimp only
    exact ⟨by simp [clear_at]; exact h, by simp [clear_at]⟩
  · rw [if_neg h1]
    dsimp only
    by_cases h2 : b.m_current_num_items = b.m_max_num_items
    · rw [if_pos (by simp; exact h2)]
      exact ⟨by simp [clear_at]; exact h, by simp [clear_at]⟩
    · rw [if_neg (by simp; exact h2)]
      exact ⟨by simp; omega, by simp⟩

/-- `push_front` never takes the item count above the logical capacity. -/
theorem push_front_current_le (ch : α → α) (b : large_ring_buffer α) (v : α)
    (h : b.m_current_num_items ≤ b.m_max_num_items) :
    (push_front ch b v).m_current_num_items ≤ b.m_max_num_items ∧
    (push_front ch b v).m_max_num_items = b.m_max_num_items := by
  unfold push_front extend_front
  by_cases h1 : b.m_current_num_items = b.m_max_size
  · rw [if_pos h1]
    dsimp only
    exact ⟨by simp [clear_at]; exact h, by simp [clear_at]⟩
  · rw [if_neg h1]
    dsimp only
    by_cases h2 : b.m_current_num_items = b.m_max_num_items
    · rw [if_pos (by simp; exact h2)]
      exact ⟨by simp [clear_at]; exact h, by simp [clear_at]⟩
    · rw [if_neg (by simp; exact h2)]
      exact ⟨by simp; omega, by simp⟩

/-- One element of an arbitrary interleaving of `push_back` (`true`) and
`push_front` (`false`) calls. -/
def apply_push (ch : α → α) (b : large_ring_buffer α) (pv : Bool × α) :
    large_ring_buffer α :=
  if pv.1 then push_back ch b pv.2 else push_front ch b pv.2

/-- No sequence of pushes ever takes `size()` above the logical capacity. -/
theorem pushes_never_exceed (ch : α → α) (ps : List (Bool × α))
    (b : large_ring_buffer α) (h : b.m_current_num_items ≤ b.m_max_num_items) :
    (ps.foldl (apply_push ch) b).m_current_num_items ≤ b.m_max_num_items ∧
    (ps.foldl (apply_push ch) b).m_max_num_items = b.m_max_num_items := by
  induction ps generalizing b with
  | nil => exact ⟨h, rfl⟩
  | cons p rest ih =>
    obtain ⟨dir, v⟩ := p
    simp only [List.foldl_cons]
    cases dir with
    | false =>
      have hred : apply_push ch b (false, v) = push_front ch b v := by simp [apply_push]
      rw [hred]
      obtain ⟨hc, hm⟩ := push_front_current_le ch b v h
      obtain ⟨ihc, ihm⟩ := ih (push_front ch b v) (by rw [hm]; exact hc)
      exact ⟨by rwa [hm] at ihc, by rw [ihm, hm]⟩
    | true =>
      have hred : apply_push ch b (true, v) = push_back ch b v := by simp [apply_push]
      rw [hred]
      obtain ⟨hc, hm⟩ := push_back_current_le ch b v h
      obtain ⟨ihc, ihm⟩ := ih (push_back ch b v) (by rw [hm]; exact hc)
      exact ⟨by rwa [hm] at ihc, by rw [ihm, hm]⟩

/-- C2: on a buffer filled to its logical capacity (nonzero), each `push_back`
evicts exactly one item from the front: the item count is unchanged, both
`start_slot` and `end_slot` advance by one, the clear strategy runs on the
front slot (whose value becomes the cleared old front, or the new item itself
when logical and physical capacity coincide), the remaining items shift down
one logical position and the new item appears at the back.  Symmetrically for
`push_front` with the back slot and retreating indices.  And after any
sequence of pushes the size never exceeds the logical capacity. -/
theorem c2_overwrite_law (ch : α → α) (b : large_ring_buffer α) (v : α)
    (hwf : WF b) (hfull : b.m_current_num_items = b.m_max_num_items)
    (hpos : 0 < b.m_max_num_items) :
    ((push_back ch b v).m_current_num_items = b.m_current_num_items ∧
     (push_back ch b v).m_start_index = (b.m_start_index + 1) % b.m_max_size ∧
     (push_back ch b v).m_end_index = (b.m_end_index + 1) % b.m_max_size ∧
     get_item (push_back ch b v) b.m_start_index
       = (if b.m_current_num_items = b.m_max_size then v
          else ch (get_item b b.m_start_index)) ∧
     (∀ i, i + 1 < b.m_current_num_items →
       index_get (push_back ch b v) i = index_get b (i + 1)) ∧
     index_get (push_back ch b v) (b.m_current_num_items - 1) = v) ∧
    ((push_front ch b v).m_current_num_items = b.m_current_num_items ∧
     (push_front ch b v).m_start_index
       = (b.m_start_index + (b.m_max_size - 1)) % b.m_max_size ∧
     (push_front ch b v).m_end_index
       = (b.m_end_index + (b.m_max_size - 1)) % b.m_max_size ∧
     get_item (push_front ch b v) (before_end_index b)
       = (if b.m_current_num_items = b.m_max_size then v
          else ch (get_item b (before_end_index b))) ∧
     (∀ i, i + 1 < b.m_current_num_items →
       index_get (push_front ch b v) (i + 1) = index_get b i) ∧
     index_get (push_front ch b v) 0 = v) ∧
    (∀ ps : List (Bool × α),
      (ps.foldl (apply_push ch) b).m_current_num_items ≤ b.m_max_num_items) := by
  obtain ⟨hss, hM, hstart, hend_eq, hcur, hmax, hseg⟩ := hwf
  have hM0 : 0 < b.m_max_size := by omega
  have hend : b.m_end_index < b.m_max_size := by
    rw [hend_eq]; exact Nat.mod_lt _ hM0
  have hcurM : b.m_current_num_items ≤ b.m_max_size := le_trans hcur hmax
  have hposc : 0 < b.m_current_num_items := by omega
  have hstart_form : b.m_start_index = (b.m_start_index + 0) % b.m_max_size := by
    rw [Nat.add_zero, Nat.mod_eq_of_lt hstart]
  have hshift_ne : ∀ k j, k < b.m_max_size → j < b.m_max_size → k ≠ j →
      (b.m_start_index + k) % b.m_max_size ≠ (b.m_start_index + j) % b.m_max_size := by
    intro k j hk hj hkj hc
    exact hkj (mod_shift_inj _ _ _ _ hk hj hc)
  have hmod_ne_start : ∀ k, 0 < k → k < b.m_max_size →
      (b.m_start_index + k) % b.m_max_size ≠ b.m_start_index := by
    intro k hk0 hk hc
    have h2 : (b.m_start_index + k) % b.m_max_size
        = (b.m_start_index + 0) % b.m_max_size := by
      rw [Nat.add_zero, Nat.mod_eq_of_lt hstart]
      exact hc
    have := mod_shift_inj _ _ _ _ hk hM0 h2
    omega
  have hbend_eq : before_end_index b
      = (b.m_end_index + (b.m_max_size - 1)) % b.m_max_size :=
    before_end_index_eq_mod b hend
  have hbend_start : before_end_index b
      = (b.m_start_index + (b.m_current_num_items - 1)) % b.m_max_size := by
    rw [hbend_eq, hend_eq, Nat.mod_add_mod,
      show b.m_start_index + b.m_current_num_items + (b.m_max_size - 1)
        = b.m_start_index + (b.m_current_num_items - 1) + b.m_max_size from by omega,
      Nat.add_mod_right]
  refine ⟨?_, ?_, fun ps => (pushes_never_exceed ch ps b (by omega)).1⟩
  · -- push_back
    by_cases hphys : b.m_current_num_items = b.m_max_size
    · obtain ⟨s1, s2, s3, s4, s5, s6, s7, s8, s9, s10⟩ :=
        push_back_evict_phys_spec ch b v hseg hss hM hstart hend hphys
      have hbs : (push_back ch b v).m_start_index < (push_back ch b v).m_max_size := by
        rw [s1, s5]; exact Nat.mod_lt _ hM0
      have hti : ∀ i, i < b.m_max_size →
          to_internal_index (push_back ch b v) i
            = (b.m_start_index + (1 + i)) % b.m_max_size := by
        intro i hi
        rw [to_internal_index_eq_mod _ i hbs (by rw [s5]; exact hi), s1, s5,
          Nat.mod_add_mod, Nat.add_assoc]
      refine ⟨s3, s1, s2, by rw [if_pos hphys]; exact s9, ?_, ?_⟩
      · intro i hi
        unfold index_get
        rw [hti i (by omega)]
        rw [to_internal_index_eq_mod _ _ hstart (by omega)]
        rw [show 1 + i = i + 1 from by omega]
        exact s10 _ (hmod_ne_start (i + 1) (by omega) (by omega))
      · unfold index_get
        rw [hti _ (by omega)]
        rw [show 1 + (b.m_current_num_items - 1) = b.m_current_num_items from by omega]
        rw [hphys, Nat.add_mod_right, Nat.mod_eq_of_lt hstart]
        exact s9
    · have hse : b.m_start_index ≠ b.m_end_index := by
        intro hc
        have h0 : (b.m_start_index + b.m_current_num_items) % b.m_max_size
            = (b.m_start_index + 0) % b.m_max_size := by
          rw [← hend_eq, ← hc, ← hstart_form]
        have := mod_shift_inj _ _ _ _ (by omega) hM0 h0
        omega
      obtain ⟨s1, s2, s3, s4, s5, s6, s7, s8, s9, s10, s11⟩ :=
        push_back_evict_log_spec ch b v hseg hss hM hstart hend hphys hfull hse
      have hbs : (push_back ch b v).m_start_index < (push_back ch b v).m_max_size := by
        rw [s1, s5]; exact Nat.mod_lt _ hM0
      have hti : ∀ i, i < b.m_max_size →
          to_internal_index (push_back ch b v) i
            = (b.m_start_index + (1 + i)) % b.m_max_size := by
        intro i hi
        rw [to_internal_index_eq_mod _ i hbs (by rw [s5]; exact hi), s1, s5,
          Nat.mod_add_mod, Nat.add_assoc]
      refine ⟨s3, s1, s2, by rw [if_neg hphys]; exact s10, ?_, ?_⟩
      · intro i hi
        unfold index_get
        rw [hti i (by omega)]
        rw [to_internal_index_eq_mod _ _ hstart (by omega)]
        rw [show 1 + i = i + 1 from by omega]
        refine s11 _ ?_ ?_
        · exact hmod_ne_start (i + 1) (by omega) (by omega)
        · rw [hend_eq]
          exact hshift_ne (i + 1) b.m_current_num_items (by omega) (by omega) (by omega)
      · unfold index_get
        rw [hti _ (by omega)]
        rw [show 1 + (b.m_current_num_items - 1) = b.m_current_num_items from by omega]
        rw [← hend_eq]
        exact s9
  · -- push_front
    by_cases hphys : b.m_current_num_items = b.m_max_size
    · obtain ⟨s1, s2, s3, s4, s5, s6, s7, s8, s9, s10⟩ :=
        push_front_evict_phys_spec ch b v hseg hss hM hstart hend hphys
      have hes : b.m_end_index = b.m_start_index := by
        rw [hend_eq, hphys, Nat.add_mod_right, Nat.mod_eq_of_lt hstart]
      have hbs : (push_front ch b v).m_start_index < (push_front ch b v).m_max_size := by
        rw [s1, s5]; exact Nat.mod_lt _ hM0
      have hti : ∀ i, i < b.m_max_size →
          to_internal_index (push_front ch b v) i
            = (b.m_start_index + (b.m_max_size - 1) + i) % b.m_max_size := by
        intro i hi
        rw [to_internal_index_eq_mod _ i hbs (by rw [s5]; exact hi), s1, s5,
          Nat.mod_add_mod]
      refine ⟨s3, s1, s2, by rw [if_pos hphys]; exact s9, ?_, ?_⟩
      · intro i hi
        unfold index_get
        rw [hti (i + 1) (by omega)]
        rw [to_internal_index_eq_mod _ _ hstart (by omega)]
        rw [show b.m_start_index + (b.m_max_size - 1) + (i + 1)
            = b.m_start_index + i + b.m_max_size from by omega, Nat.add_mod_right]
        refine s10 _ ?_
        rw [hbend_start]
        rw [show b.m_start_index + i = b.m_start_index + i from rfl]
        exact hshift_ne i (b.m_current_num_items - 1) (by omega) (by omega) (by omega)
      · unfold index_get
        rw [hti 0 hM0, Nat.add_zero]
        rw [show (b.m_start_index + (b.m_max_size - 1)) % b.m_max_size
            = before_end_index b from by rw [hbend_eq, hes]]
        exact s9
    · have hsb : (b.m_start_index + (b.m_max_size - 1)) % b.m_max_size
          ≠ before_end_index b := by
        rw [hbend_start]
        exact hshift_ne (b.m_max_size - 1) (b.m_current_num_items - 1) (by omega)
          (by omega) (by omega)
      obtain ⟨s1, s2, s3, s4, s5, s6, s7, s8, s9, s10, s11⟩ :=
        push_front_evict_log_spec ch b v hseg hss hM hstart hend hphys hfull hsb
      have hbs : (push_front ch b v).m_start_index < (push_front ch b v).m_max_size := by
        rw [s1, s5]; exact Nat.mod_lt _ hM0
      have hti : ∀ i, i < b.m_max_size →
          to_internal_index (push_front ch b v) i
            = (b.m_start_index + (b.m_max_size - 1) + i) % b.m_max_size := by
        intro i hi
        rw [to_internal_index_eq_mod _ i hbs (by rw [s5]; exact hi), s1, s5,
          Nat.mod_add_mod]
      refine ⟨s3, s1, s2, by rw [if_neg hphys]; exact s10, ?_, ?_⟩
      · intro i hi
        unfold index_get
        rw [hti (i + 1) (by omega)]
        rw [to_internal_index_eq_mod _ _ hstart (by omega)]
        rw [show b.m_start_index + (b.m_max_size - 1) + (i + 1)
            = b.m_start_index + i + b.m_max_size from by omega, Nat.add_mod_right]
        refine s11 _ ?_ ?_
        · exact hshift_ne i (b.m_max_size - 1) (by omega) (by omega) (by omega)
        · rw [hbend_start]
          exact hshift_ne i (b.m_current_num_items - 1) (by omega) (by omega) (by omega)
      · unfold index_get
        rw [hti 0 hM0, Nat.add_zero]
        exact s9

def c2_example : large_ring_buffer Nat :=
  ⟨[[30, 31], [32, 33]], 1, 1, 4, 4, 2, 4, false⟩

theorem c2_witness :
    ((push_back id c2_example 7).m_current_num_items
        = c2_example.m_current_num_items ∧
     (push_back id c2_example 7).m_start_index
        = (c2_example.m_start_index + 1) % c2_example.m_max_size ∧
     (push_back id c2_example 7).m_end_index
        = (c2_example.m_end_index + 1) % c2_example.m_max_size ∧
     get_item (push_back id c2_example 7) c2_example.m_start_index
        = (if c2_example.m_current_num_items = c2_example.m_max_size then 7
           else id (get_item c2_example c2_example.m_start_index)) ∧
     (∀ i, i + 1 < c2_example.m_current_num_items →
       index_get (push_back id c2_example 7) i = index_get c2_example (i + 1)) ∧
     index_get (push_back id c2_example 7) (c2_example.m_current_num_items - 1) = 7) ∧
    ((push_front id c2_example 7).m_current_num_items
        = c2_example.m_current_num_items ∧
     (push_front id c2_example 7).m_start_index
        = (c2_example.m_start_index + (c2_example.m_max_size - 1))
            % c2_example.m_max_size ∧
     (push_front id c2_example 7).m_end_index
        = (c2_example.m_end_index + (c2_example.m_max_size - 1))
            % c2_example.m_max_size ∧
     get_item (push_front id c2_example 7) (before_end_index c2_example)
        = (if c2_example.m_current_num_items = c2_example.m_max_size then 7
           else id (get_item c2_example (before_end_index c2_example))) ∧
     (∀ i, i + 1 < c2_example.m_current_num_items →
       index_get (push_front id c2_example 7) (i + 1) = index_get c2_example i) ∧
     index_get (push_front id c2_example 7) 0 = 7) ∧
    (∀ ps : List (Bool × Nat),
      (ps.foldl (apply_push id) c2_example).m_current_num_items
        ≤ c2_example.m_max_num_items) :=
  c2_overwrite_law id c2_example 7 (by decide) (by decide) (by decide)

/-- List helper: `getD` at an in-range index ignores the default. -/
theorem getD_congr_default {β : Type} (l : List β) (i : Nat) (d1 d2 : β)
    (h : i < l.length) : l.getD i d1 = l.getD i d2 := by
  rw [List.getD_eq_getElem?_getD, List.getD_eq_getElem?_getD, List.getElem?_eq_getElem h]
  rfl

/-- List helper: `set` cannot change emptiness. -/
theorem isEmpty_set {β : Type} (l : List β) (i : Nat) (x : β) :
    (l.set i x).isEmpty = l.isEmpty := by
  cases l <;> cases i <;> simp [List.set]

/-- Allocating a segment never lowers the allocated-segment count. -/
theorem used_materialize (b : large_ring_buffer α) (ii : Nat) :
    get_used_segments b ≤ get_used_segments (materialize b ii) := by
  unfold get_used_segments
  by_cases hemp : (b.m_segments.getD (ii / b.m_segment_size) []).isEmpty
  · simp only [materialize]
    rw [if_pos hemp]
    dsimp only
    by_cases hlen0 : ii / b.m_segment_size < b.m_segments.length
    · have hstep := countP_set (fun segment => !segment.isEmpty) b.m_segments
        (ii / b.m_segment_size) (List.replicate b.m_segment_size default) hlen0
      have hdef := getD_congr_default b.m_segments (ii / b.m_segment_size)
        (List.replicate b.m_segment_size default) ([] : List α) hlen0
      simp only [hdef] at hstep
      rw [hemp] at hstep
      simp at hstep
      omega
    · rw [List.set_eq_of_length_le (by omega)]
  · simp only [materialize]
    rw [if_neg hemp]

/-- Writing a slot changes the allocated-segment count exactly as the
allocation step does: the write itself cannot free or allocate a segment. -/
theorem used_set_item_eq_materialize (b : large_ring_buffer α) (ii : Nat) (v : α) :
    get_used_segments (set_item b ii v) = get_used_segments (materialize b ii) := by
  unfold set_item get_used_segments
  simp only [materialize_segment_size]
  by_cases hlen : ii / b.m_segment_size < (materialize b ii).m_segments.length
  · have hstep := countP_set (fun segment => !segment.isEmpty)
      (materialize b ii).m_segments (ii / b.m_segment_size)
      (((materialize b ii).m_segments.getD (ii / b.m_segment_size) []).set
        (ii % b.m_segment_size) v) hlen
    have hdef := getD_congr_default (materialize b ii).m_segments (ii / b.m_segment_size)
      ((((materialize b ii).m_segments.getD (ii / b.m_segment_size) []).set
        (ii % b.m_segment_size) v)) ([] : List α) hlen
    simp only [hdef, isEmpty_set] at hstep
    omega
  · rw [List.set_eq_of_length_le (by omega)]

/-- Writing a slot never frees a segment: the allocated-segment count does not
decrease. -/
theorem used_set_item_ge (b : large_ring_buffer α) (ii : Nat) (v : α) :
    get_used_segments b ≤ get_used_segments (set_item b ii v) := by
  rw [used_set_item_eq_materialize]
  exact used_materialize b ii

/-- Writing into a slot of an already-allocated segment keeps the
allocated-segment count unchanged. -/
theorem used_set_item_nonempty (b : large_ring_buffer α) (ii : Nat) (v : α)
    (hmat : (b.m_segments.getD (ii / b.m_segment_size) []).isEmpty = false) :
    get_used_segments (set_item b ii v) = get_used_segments b := by
  have hmm : materialize b ii = b := by
    unfold materialize
    rw [if_neg (by rw [hmat]; simp)]
  rw [used_set_item_eq_materialize, hmm]

/-- `decrement_segment_start` keeps indices inside the segment range. -/
theorem decrement_segment_start_lt (x n : Nat) (hx : x < n) :
    decrement_segment_start x n < n := by
  unfold decrement_segment_start
  split <;> omega

/-- When `can_remove_segments` fails, front reclamation does nothing. -/
theorem remove_front_of_not_can (b : large_ring_buffer α)
    (h : can_remove_segments b = false) :
    remove_unused_segments_front b = b := by
  unfold remove_unused_segments_front
  rw [if_neg (by simp [h])]

/-- When `can_remove_segments` fails, back reclamation does nothing. -/
theorem remove_back_of_not_can (b : large_ring_buffer α)
    (h : can_remove_segments b = false) :
    remove_unused_segments_back b = b := by
  unfold remove_unused_segments_back
  rw [if_neg (by simp [h])]

/-- Front reclamation either leaves the state unchanged or (when the slack,
the adjacency guard and the opposite-boundary guards all hold) frees exactly
the segment two steps behind the segment holding the start index. -/
theorem remove_front_characterize (b : large_ring_buffer α) :
    remove_unused_segments_front b = b ∨
    (can_remove_segments b = true ∧
     decrement_segment_start (b.m_start_index / b.m_segment_size)
        (b.m_max_size / b.m_segment_size) ≠ b.m_end_index / b.m_segment_size ∧
     decrement_segment_start (decrement_segment_start
        (b.m_start_index / b.m_segment_size) (b.m_max_size / b.m_segment_size))
        (b.m_max_size / b.m_segment_size) ≠ b.m_end_index / b.m_segment_size ∧
     (b.m_segments.getD (decrement_segment_start (decrement_segment_start
        (b.m_start_index / b.m_segment_size) (b.m_max_size / b.m_segment_size))
        (b.m_max_size / b.m_segment_size)) []).isEmpty = false ∧
     remove_unused_segments_front b
        = { b with m_segments := b.m_segments.set (decrement_segment_start
            (decrement_segment_start (b.m_start_index / b.m_segment_size)
              (b.m_max_size / b.m_segment_size))
            (b.m_max_size / b.m_segment_size)) [] }) := by
  unfold remove_unused_segments_front
  by_cases hcr : can_remove_segments b = true
  · rw [if_pos hcr]
    dsimp only
    by_cases hg1 : decrement_segment_start (b.m_start_index / b.m_segment_size)
        (b.m_max_size / b.m_segment_size) ≠ b.m_end_index / b.m_segment_size ∧
        (b.m_segments.getD (decrement_segment_start (b.m_start_index / b.m_segment_size)
          (b.m_max_size / b.m_segment_size)) []).isEmpty = false
    · rw [if_pos hg1]
      by_cases hg2 : decrement_segment_start (decrement_segment_start
          (b.m_start_index / b.m_segment_size) (b.m_max_size / b.m_segment_size))
          (b.m_max_size / b.m_segment_size) ≠ b.m_end_index / b.m_segment_size ∧
          (b.m_segments.getD (decrement_segment_start (decrement_segment_start
            (b.m_start_index / b.m_segment_size) (b.m_max_size / b.m_segment_size))
            (b.m_max_size / b.m_segment_size)) []).isEmpty = false
      · rw [if_pos hg2]
        exact Or.inr ⟨hcr, hg1.1, hg2.1, hg2.2, rfl⟩
      · rw [if_neg hg2]
        exact Or.inl rfl
    · rw [if_neg hg1]
      exact Or.inl rfl
  · rw [if_neg hcr]
    exact Or.inl rfl

/-- Front reclamation under all its guards frees exactly one segment. -/
theorem remove_front_frees (b : large_ring_buffer α)
    (hcr : can_remove_segments b = true)
    (hg1 : decrement_segment_start (b.m_start_index / b.m_segment_size)
        (b.m_max_size / b.m_segment_size) ≠ b.m_end_index / b.m_segment_size)
    (hne1 : (b.m_segments.getD (decrement_segment_start
        (b.m_start_index / b.m_segment_size) (b.m_max_size / b.m_segment_size))
        []).isEmpty = false)
    (hg2 : decrement_segment_start (decrement_segment_start
        (b.m_start_index / b.m_segment_size) (b.m_max_size / b.m_segment_size))
        (b.m_max_size / b.m_segment_size) ≠ b.m_end_index / b.m_segment_size)
    (hne2 : (b.m_segments.getD (decrement_segment_start (decrement_segment_start
        (b.m_start_index / b.m_segment_size) (b.m_max_size / b.m_segment_size))
        (b.m_max_size / b.m_segment_size)) []).isEmpty = false) :
    remove_unused_segments_front b
      = { b with m_segments := b.m_segments.set (decrement_segment_start
          (decrement_segment_start (b.m_start_index / b.m_segment_size)
            (b.m_max_size / b.m_segment_size))
          (b.m_max_size / b.m_segment_size)) [] } := by
  unfold remove_unused_segments_front
  rw [if_pos hcr]
  dsimp only
  rw [if_pos ⟨hg1, hne1⟩, if_pos ⟨hg2, hne2⟩]

/-- Converting a circular slot index to its segment index: with an aligned
base `a * ss`, the slot `(a * ss + k) mod (ss * n)` lies in segment
`(a + k / ss) mod n`. -/
theorem circular_slot_seg (a k ss n : Nat) (hss : 0 < ss) :
    ((a * ss + k) % (ss * n)) / ss = (a + k / ss) % n := by
  rw [Nat.mod_mul_right_div_self]
  congr 1
  rw [show a * ss + k = ss * a + k from by ring, Nat.mul_add_div hss]

/-- The heart of the reclamation safety argument: when both boundary guards
hold, the freed segment (two steps behind the aligned start segment `a`)
contains no occupied slot.  Occupancy of a slot `(a*ss + k) mod (n*ss)` with
`k < c` in that segment would force `k/ss = n-2`, hence `c/ss ∈ {n-2, n-1}`,
which is exactly what the two guards against the end segment rule out. -/
theorem no_live_in_freed_segment (n ss a c k : Nat)
    (hss : 0 < ss) (ha : a < n) (hcan : ss < n * ss - c) (hk : k < c)
    (hg1 : decrement_segment_start a n ≠ (a + c / ss) % n)
    (hg2 : decrement_segment_start (decrement_segment_start a n) n
      ≠ (a + c / ss) % n) :
    (a + k / ss) % n ≠ decrement_segment_start (decrement_segment_start a n) n := by
  have hn2 : 2 ≤ n := by
    by_contra hn
    have : n * ss ≤ 1 * ss := Nat.mul_le_mul_right ss (by omega)
    omega
  have hd1 : decrement_segment_start a n = (a + (n - 1)) % n := by
    unfold decrement_segment_start
    exact wrap_dec_eq_mod n a ha
  have hd1lt : (a + (n - 1)) % n < n := Nat.mod_lt _ (by omega)
  have hd2 : decrement_segment_start (decrement_segment_start a n) n
      = (a + (n - 2)) % n := by
    rw [hd1]
    unfold decrement_segment_start
    rw [wrap_dec_eq_mod n _ hd1lt, Nat.mod_add_mod,
      show a + (n - 1) + (n - 1) = a + (n - 2) + n from by omega, Nat.add_mod_right]
  rw [hd2]
  intro hc
  have hcM : c < n * ss := by omega
  have hkss : k / ss < n := (Nat.div_lt_iff_lt_mul hss).mpr (by omega)
  have hkeq : k / ss = n - 2 := mod_shift_inj n a _ _ hkss (by omega) hc
  have hklow : (n - 2) * ss ≤ k := by
    rw [← hkeq]
    exact Nat.div_mul_le_self k ss
  have hcd : n - 2 ≤ c / ss := (Nat.le_div_iff_mul_le hss).mpr (by omega)
  have hcdlt : c / ss < n := (Nat.div_lt_iff_lt_mul hss).mpr hcM
  have h1 : c / ss ≠ n - 1 := by
    intro he
    apply hg1
    rw [hd1, he]
  have h2 : c / ss ≠ n - 2 := by
    intro he
    apply hg2
    rw [hd2, he]
  omega

/-- Shifting an in-range base by a nonzero amount below the modulus moves it. -/
theorem mod_shift_ne_base (M s k : Nat) (hs : s < M) (hk0 : 0 < k) (hk : k < M) :
    (s + k) % M ≠ s := by
  intro hc
  have h2 : (s + k) % M = (s + 0) % M := by
    rw [Nat.add_zero, Nat.mod_eq_of_lt hs]
    exact hc
  have := mod_shift_inj M s k 0 hk (by omega) h2
  omega

theorem remove_front_start (b : large_ring_buffer α) :
    (remove_unused_segments_front b).m_start_index = b.m_start_index := by
  rcases remove_front_characterize b with h | ⟨-, -, -, -, h⟩ <;> rw [h]

theorem remove_front_end (b : large_ring_buffer α) :
    (remove_unused_segments_front b).m_end_index = b.m_end_index := by
  rcases remove_front_characterize b with h | ⟨-, -, -, -, h⟩ <;> rw [h]

theorem remove_front_current (b : large_ring_buffer α) :
    (remove_unused_segments_front b).m_current_num_items = b.m_current_num_items := by
  rcases remove_front_characterize b with h | ⟨-, -, -, -, h⟩ <;> rw [h]

theorem remove_front_max_num (b : large_ring_buffer α) :
    (remove_unused_segments_front b).m_max_num_items = b.m_max_num_items := by
  rcases remove_front_characterize b with h | ⟨-, -, -, -, h⟩ <;> rw [h]

theorem remove_front_max_size (b : large_ring_buffer α) :
    (remove_unused_segments_front b).m_max_size = b.m_max_size := by
  rcases remove_front_characterize b with h | ⟨-, -, -, -, h⟩ <;> rw [h]

theorem remove_front_segment_size (b : large_ring_buffer α) :
    (remove_unused_segments_front b).m_segment_size = b.m_segment_size := by
  rcases remove_front_characterize b with h | ⟨-, -, -, -, h⟩ <;> rw [h]

theorem remove_front_fixed (b : large_ring_buffer α) :
    (remove_unused_segments_front b).m_fixed_segment_allocation
      = b.m_fixed_segment_allocation := by
  rcases remove_front_characterize b with h | ⟨-, -, -, -, h⟩ <;> rw [h]

theorem remove_front_seg_length (b : large_ring_buffer α) :
    (remove_unused_segments_front b).m_segments.length = b.m_segments.length := by
  rcases remove_front_characterize b with h | ⟨-, -, -, -, h⟩
  · rw [h]
  · rw [h]
    simp

theorem remove_front_seg_inv (b : large_ring_buffer α)
    (hseg : ∀ s ∈ b.m_segments, s = [] ∨ s.length = b.m_segment_size) :
    ∀ s ∈ (remove_unused_segments_front b).m_segments,
      s = [] ∨ s.length = b.m_segment_size := by
  rcases remove_front_characterize b with h | ⟨-, -, -, -, h⟩
  · rw [h]; exact hseg
  · rw [h]
    intro s hs
    rcases List.mem_or_eq_of_mem_set hs with hs' | hs'
    · exact hseg s hs'
    · left; exact hs'

/-- Reclamation from the front never touches an occupied slot: on a state with
an aligned start index, every slot at offset `k < item_count` from the start
reads the same before and after `remove_unused_segments_front`. -/
theorem remove_front_get_live (b : large_ring_buffer α)
    (hss : 0 < b.m_segment_size)
    (hM : b.m_max_size = b.m_segments.length * b.m_segment_size)
    (hstart : b.m_start_index < b.m_max_size)
    (halign : b.m_start_index % b.m_segment_size = 0)
    (hend_eq : b.m_end_index = (b.m_start_index + b.m_current_num_items) % b.m_max_size)
    (k : Nat) (hk : k < b.m_current_num_items) :
    get_item (remove_unused_segments_front b)
        ((b.m_start_index + k) % b.m_max_size)
      = get_item b ((b.m_start_index + k) % b.m_max_size) := by
  rcases remove_front_characterize b with h | ⟨hcr, hg1, hg2, hne2, h⟩
  · rw [h]
  · have hn : b.m_max_size / b.m_segment_size = b.m_segments.length := by
      rw [hM]; exact Nat.mul_div_cancel _ hss
    have hMc : b.m_max_size = b.m_segment_size * b.m_segments.length := by
      rw [hM, Nat.mul_comm]
    have ha : b.m_start_index / b.m_segment_size < b.m_segments.length :=
      slot_div_lt _ _ _ _ hM hss hstart
    have hsa : b.m_start_index
        = (b.m_start_index / b.m_segment_size) * b.m_segment_size := by
      have hdm := Nat.div_add_mod b.m_start_index b.m_segment_size
      rw [Nat.mul_comm]
      omega
    have hslotseg : ∀ j, ((b.m_start_index + j) % b.m_max_size) / b.m_segment_size
        = (b.m_start_index / b.m_segment_size + j / b.m_segment_size)
            % b.m_segments.length := by
      intro j
      conv_lhs => rw [hsa, hMc]
      exact circular_slot_seg _ j _ _ hss
    have hendseg : b.m_end_index / b.m_segment_size
        = (b.m_start_index / b.m_segment_size
            + b.m_current_num_items / b.m_segment_size) % b.m_segments.length := by
      rw [hend_eq]
      exact hslotseg _
    have hcan : b.m_segment_size
        < b.m_segments.length * b.m_segment_size - b.m_current_num_items := by
      have h1 : b.m_segment_size < b.m_max_size - b.m_current_num_items := by
        have h2 := hcr
        unfold can_remove_segments at h2
        exact of_decide_eq_true h2
      omega
    have hi2ne : decrement_segment_start (decrement_segment_start
        (b.m_start_index / b.m_segment_size) (b.m_max_size / b.m_segment_size))
        (b.m_max_size / b.m_segment_size)
        ≠ ((b.m_start_index + k) % b.m_max_size) / b.m_segment_size := by
      rw [hn, hslotseg k]
      intro hc
      exact no_live_in_freed_segment b.m_segments.length b.m_segment_size
        (b.m_start_index / b.m_segment_size) b.m_current_num_items k hss ha hcan hk
        (by rw [hn, hendseg] at hg1; exact hg1)
        (by rw [hn, hendseg] at hg2; exact hg2) hc.symm
    rw [h]
    unfold get_item
    dsimp only
    rw [getD_set_ne _ _ _ _ _ hi2ne]

/-- Full characterization of `pop_front` on a well-formed nonempty buffer:
the start index advances, the item count drops by one, the other scalars are
unchanged, the segment-length invariant is preserved, and every surviving
item's slot reads the same value as before. -/
theorem pop_front_spec (ch : α → α) (b : large_ring_buffer α)
    (hseg : ∀ s ∈ b.m_segments, s = [] ∨ s.length = b.m_segment_size)
    (hss : 0 < b.m_segment_size)
    (hM : b.m_max_size = b.m_segments.length * b.m_segment_size)
    (hstart : b.m_start_index < b.m_max_size)
    (hend_eq : b.m_end_index = (b.m_start_index + b.m_current_num_items) % b.m_max_size)
    (hcurM : b.m_current_num_items ≤ b.m_max_size)
    (hpos : 0 < b.m_current_num_items) :
    (pop_front ch b).m_start_index = (b.m_start_index + 1) % b.m_max_size ∧
    (pop_front ch b).m_end_index = b.m_end_index ∧
    (pop_front ch b).m_current_num_items = b.m_current_num_items - 1 ∧
    (pop_front ch b).m_max_num_items = b.m_max_num_items ∧
    (pop_front ch b).m_max_size = b.m_max_size ∧
    (pop_front ch b).m_segment_size = b.m_segment_size ∧
    (pop_front ch b).m_fixed_segment_allocation = b.m_fixed_segment_allocation ∧
    (pop_front ch b).m_segments.length = b.m_segments.length ∧
    (∀ s ∈ (pop_front ch b).m_segments, s = [] ∨ s.length = b.m_segment_size) ∧
    (∀ k, k + 1 < b.m_current_num_items →
      get_item (pop_front ch b) ((b.m_start_index + (1 + k)) % b.m_max_size)
        = get_item b ((b.m_start_index + (1 + k)) % b.m_max_size)) := by
  have hM0 : 0 < b.m_max_size := by omega
  have hCseg : ∀ s ∈ (clear_at ch b b.m_start_index).m_segments,
      s = [] ∨ s.length = b.m_segment_size :=
    set_item_seg_inv b _ _ hseg
  set B3 : large_ring_buffer α :=
    { increment_start_index (clear_at ch b b.m_start_index) with
      m_current_num_items :=
        (increment_start_index (clear_at ch b b.m_start_index)).m_current_num_items - 1 }
    with hB3
  have hcore : pop_front ch b
      = if B3.m_fixed_segment_allocation = false ∧
          B3.m_start_index % B3.m_segment_size = 0 then
          remove_unused_segments_front B3
        else B3 := rfl
  have hb3start : B3.m_start_index = (b.m_start_index + 1) % b.m_max_size := by
    rw [hB3]
    show (increment_start_index (clear_at ch b b.m_start_index)).m_start_index = _
    rw [increment_start_index_start]
    simp [clear_at]
    exact wrap_inc_eq_mod _ _ hstart
  have hb3end : B3.m_end_index = b.m_end_index := by
    rw [hB3]
    show (increment_start_index (clear_at ch b b.m_start_index)).m_end_index = _
    simp [clear_at]
  have hb3cur : B3.m_current_num_items = b.m_current_num_items - 1 := by
    rw [hB3]
    show (increment_start_index (clear_at ch b b.m_start_index)).m_current_num_items - 1
      = _
    simp [clear_at]
  have hb3maxnum : B3.m_max_num_items = b.m_max_num_items := by
    rw [hB3]
    show (increment_start_index (clear_at ch b b.m_start_index)).m_max_num_items = _
    simp [clear_at]
  have hb3M : B3.m_max_size = b.m_max_size := by
    rw [hB3]
    show (increment_start_index (clear_at ch b b.m_start_index)).m_max_size = _
    simp [clear_at]
  have hb3ss : B3.m_segment_size = b.m_segment_size := by
    rw [hB3]
    show (increment_start_index (clear_at ch b b.m_start_index)).m_segment_size = _
    simp [clear_at]
  have hb3fixed : B3.m_fixed_segment_allocation = b.m_fixed_segment_allocation := by
    rw [hB3]
    show (increment_start_index
      (clear_at ch b b.m_start_index)).m_fixed_segment_allocation = _
    simp [clear_at]
  have hb3len : B3.m_segments.length = b.m_segments.length := by
    rw [hB3]
    show (increment_start_index (clear_at ch b b.m_start_index)).m_segments.length = _
    simp [clear_at]
  have hb3seginv : ∀ s ∈ B3.m_segments, s = [] ∨ s.length = b.m_segment_size := by
    rw [hB3]
    show ∀ s ∈ (increment_start_index (clear_at ch b b.m_start_index)).m_segments, _
    simpa using hCseg
  have hgetb3 : ∀ jj, jj ≠ b.m_start_index → get_item B3 jj = get_item b jj := by
    intro jj hjj
    have h1 : get_item B3 jj = get_item (clear_at ch b b.m_start_index) jj :=
      get_item_congr _ _ rfl rfl jj
    rw [h1]
    exact get_item_set_item_ne b _ _ _
      (div_mod_pair_ne _ _ _ (fun hc => hjj hc.symm))
  rw [hcore]
  by_cases hbr : B3.m_fixed_segment_allocation = false ∧
      B3.m_start_index % B3.m_segment_size = 0
  · rw [if_pos hbr]
    refine ⟨?_, ?_, ?_, ?_, ?_, ?_, ?_, ?_, ?_, ?_⟩
    · rw [remove_front_start, hb3start]
    · rw [remove_front_end, hb3end]
    · rw [remove_front_current, hb3cur]
    · rw [remove_front_max_num, hb3maxnum]
    · rw [remove_front_max_size, hb3M]
    · rw [remove_front_segment_size, hb3ss]
    · rw [remove_front_fixed, hb3fixed]
    · rw [remove_front_seg_length, hb3len]
    · intro s hs
      have := remove_front_seg_inv B3 (by rw [hb3ss]; exact hb3seginv) s hs
      rw [hb3ss] at this
      exact this
    · intro k hk
      have hslot : (b.m_start_index + (1 + k)) % b.m_max_size
          = (B3.m_start_index + k) % B3.m_max_size := by
        rw [hb3start, hb3M, Nat.mod_add_mod]
        congr 1
        omega
      rw [hslot]
      rw [remove_front_get_live B3 (by rw [hb3ss]; exact hss)
        (by rw [hb3M, hb3len, hb3ss]; exact hM)
        (by rw [hb3start, hb3M]; exact Nat.mod_lt _ hM0)
        hbr.2
        (by rw [hb3end, hb3start, hb3cur, hb3M, Nat.mod_add_mod, hend_eq]
            congr 1
            omega)
        k (by rw [hb3cur]; omega)]
      rw [← hslot]
      exact hgetb3 _ (mod_shift_ne_base _ _ _ hstart (by omega) (by omega))
  · rw [if_neg hbr]
    exact ⟨hb3start, hb3end, hb3cur, hb3maxnum, hb3M, hb3ss, hb3fixed, hb3len,
      hb3seginv,
      fun k hk => hgetb3 _ (mod_shift_ne_base _ _ _ hstart (by omega) (by omega))⟩

/-- The logical contents of the buffer, front to back, as read by the
index operator. -/
def logical_list (b : large_ring_buffer α) : List α :=
  (List.range b.m_current_num_items).map (index_get b)

/-- A client operation on the queue interface of the buffer. -/
inductive queue_op (α : Type) where
  | push (v : α)
  | pop

/-- Run a sequence of `push_back`/`pop_front` operations on the buffer,
collecting for each pop the value observed by `front()` just before it. -/
def run_ops (ch : α → α) : large_ring_buffer α → List (queue_op α) →
    large_ring_buffer α × List α
  | b, [] => (b, [])
  | b, queue_op.push v :: rest => run_ops ch (push_back ch b v) rest
  | b, queue_op.pop :: rest =>
      let r := run_ops ch (pop_front ch b) rest
      (r.1, front b :: r.2)

/-- The abstract FIFO queue: pushes append at the back, pops take the head. -/
def fifo_model : List α → List (queue_op α) → List α
  | _, [] => []
  | q, queue_op.push v :: rest => fifo_model (q ++ [v]) rest
  | q, queue_op.pop :: rest => q.headD default :: fifo_model q.tail rest

/-- The claim's side condition: the number of held items never exceeds the
logical capacity along the sequence (so no push evicts), and no pop hits an
empty buffer (which would be undefined behavior). -/
def valid_ops (cap : Nat) : Nat → List (queue_op α) → Bool
  | _, [] => true
  | n, queue_op.push _ :: rest => decide (n < cap) && valid_ops cap (n + 1) rest
  | n, queue_op.pop :: rest => decide (0 < n) && valid_ops cap (n - 1) rest

/-- Simulation step for a non-evicting `push_back`: well-formedness is
preserved and the logical contents gain `v` at the back. -/
theorem push_back_sim (ch : α → α) (b : large_ring_buffer α) (v : α)
    (hwf : WF b) (hlt : b.m_current_num_items < b.m_max_num_items) :
    WF (push_back ch b v) ∧
    logical_list (push_back ch b v) = logical_list b ++ [v] ∧
    (push_back ch b v).m_current_num_items = b.m_current_num_items + 1 ∧
    (push_back ch b v).m_max_num_items = b.m_max_num_items := by
  obtain ⟨hss, hM, hstart, hend_eq, hcur, hmax, hseg⟩ := hwf
  have hM0 : 0 < b.m_max_size := by omega
  have hend : b.m_end_index < b.m_max_size := by
    rw [hend_eq]; exact Nat.mod_lt _ hM0
  obtain ⟨s1, s2, s3, s4, s5, s6, s7, s8, s9, s10, s11⟩ :=
    push_back_grow_spec ch b v hseg hss hM hend (by omega) (by omega)
  have hti : ∀ i, i < b.m_max_size →
      to_internal_index (push_back ch b v) i
        = (b.m_start_index + i) % b.m_max_size := by
    intro i hi
    rw [to_internal_index_eq_mod _ i (by rw [s1, s5]; exact hstart)
      (by rw [s5]; exact hi), s1, s5]
  refine ⟨⟨by rw [s6]; exact hss, by rw [s5, s8, s6]; exact hM,
    by rw [s1, s5]; exact hstart, ?_, by rw [s3, s4]; omega, by rw [s4, s5]; exact hmax,
    by rw [s6]; exact s9⟩, ?_, s3, s4⟩
  · rw [s2, s1, s3, s5, hend_eq, Nat.mod_add_mod, Nat.add_assoc]
  · unfold logical_list
    rw [s3, List.range_succ, List.map_append]
    congr 1
    · apply List.map_congr_left
      intro i hi
      have hilt : i < b.m_current_num_items := by simpa using hi
      unfold index_get
      rw [hti i (by omega), to_internal_index_eq_mod b i hstart (by omega)]
      refine s11 _ ?_
      rw [hend_eq]
      intro hc
      have := mod_shift_inj _ _ _ _ (show i < b.m_max_size by omega)
        (show b.m_current_num_items < b.m_max_size by omega) hc
      omega
    · simp only [List.map_cons, List.map_nil]
      unfold index_get
      rw [hti _ (by omega), ← hend_eq, s10]

/-- Simulation step for `pop_front`: well-formedness is preserved, the
observed front is the head of the logical contents, and the remaining
contents are the tail. -/
theorem pop_front_sim (ch : α → α) (b : large_ring_buffer α)
    (hwf : WF b) (hpos : 0 < b.m_current_num_items) :
    WF (pop_front ch b) ∧
    logical_list (pop_front ch b) = (logical_list b).tail ∧
    front b = (logical_list b).headD default ∧
    (pop_front ch b).m_current_num_items = b.m_current_num_items - 1 ∧
    (pop_front ch b).m_max_num_items = b.m_max_num_items := by
  obtain ⟨hss, hM, hstart, hend_eq, hcur, hmax, hseg⟩ := hwf
  have hM0 : 0 < b.m_max_size := by omega
  obtain ⟨s1, s2, s3, s4, s5, s6, s7, s8, s9, s10⟩ :=
    pop_front_spec ch b hseg hss hM hstart hend_eq (by omega) hpos
  have hti : ∀ i, i < b.m_max_size →
      to_internal_index (pop_front ch b) i
        = (b.m_start_index + (1 + i)) % b.m_max_size := by
    intro i hi
    rw [to_internal_index_eq_mod _ i (by rw [s1, s5]; exact Nat.mod_lt _ hM0)
      (by rw [s5]; exact hi), s1, s5, Nat.mod_add_mod, Nat.add_assoc]
  obtain ⟨c', hc'⟩ : ∃ c', b.m_current_num_items = c' + 1 :=
    ⟨b.m_current_num_items - 1, by omega⟩
  have hhead : front b = (logical_list b).headD default := by
    unfold logical_list front
    rw [hc', List.range_succ_eq_map, List.map_cons]
    show get_item b b.m_start_index = index_get b 0
    unfold index_get
    rw [to_internal_index_eq_mod b 0 hstart (by omega), Nat.add_zero,
      Nat.mod_eq_of_lt hstart]
  refine ⟨⟨by rw [s6]; exact hss, by rw [s5, s8, s6]; exact hM,
    by rw [s1, s5]; exact Nat.mod_lt _ hM0, ?_, by rw [s3, s4]; omega,
    by rw [s4, s5]; exact hmax, by rw [s6]; exact s9⟩, ?_, hhead, s3, s4⟩
  · rw [s2, s1, s3, s5, hend_eq, Nat.mod_add_mod]
    congr 1
    omega
  · unfold logical_list
    rw [s3, hc', show c' + 1 - 1 = c' from rfl, List.range_succ_eq_map, List.map_cons,
      List.tail_cons, List.map_map]
    apply List.map_congr_left
    intro i hi
    have hilt : i < c' := by simpa using hi
    simp only [Function.comp_apply]
    unfold index_get
    rw [hti i (by omega), to_internal_index_eq_mod b (Nat.succ i) hstart (by omega)]
    rw [show b.m_start_index + Nat.succ i = b.m_start_index + (1 + i) from by omega]
    exact s10 i (by omega)

/-- C7: on a well-formed buffer, any sequence of `push_back`/`pop_front`
operations during which the held item count never exceeds the logical
capacity (and no pop hits an empty buffer) produces, through `front()`
observed before each pop, exactly the outputs of the abstract FIFO queue
seeded with the buffer's logical contents: items come out in insertion
order. -/
theorem c7_fifo_order (ch : α → α) (ops : List (queue_op α))
    (b : large_ring_buffer α) (hwf : WF b)
    (hvalid : valid_ops b.m_max_num_items b.m_current_num_items ops = true) :
    (run_ops ch b ops).2 = fifo_model (logical_list b) ops := by
  induction ops generalizing b with
  | nil => rfl
  | cons op rest ih =>
    cases op with
    | push v =>
      simp only [valid_ops, Bool.and_eq_true, decide_eq_true_eq] at hvalid
      obtain ⟨hlt, hrest⟩ := hvalid
      obtain ⟨hwf', hlist, hcur', hmax'⟩ := push_back_sim ch b v hwf hlt
      show (run_ops ch (push_back ch b v) rest).2
        = fifo_model (logical_list b ++ [v]) rest
      rw [← hlist]
      exact ih (push_back ch b v) hwf' (by rw [hcur', hmax']; exact hrest)
    | pop =>
      simp only [valid_ops, Bool.and_eq_true, decide_eq_true_eq] at hvalid
      obtain ⟨hpos, hrest⟩ := hvalid
      obtain ⟨hwf', htail, hhead, hcur', hmax'⟩ := pop_front_sim ch b hwf hpos
      show front b :: (run_ops ch (pop_front ch b) rest).2
        = (logical_list b).headD default :: fifo_model (logical_list b).tail rest
      rw [hhead, ← htail]
      congr 1
      exact ih (pop_front ch b) hwf' (by rw [hcur', hmax']; exact hrest)

def c7_example : large_ring_buffer Nat :=
  (discard_and_change_configuration (default_buffer Nat) 2 2 4 false false).1

def c7_ops : List (queue_op Nat) :=
  [queue_op.push 1, queue_op.push 2, queue_op.pop, queue_op.push 3,
   queue_op.pop, queue_op.pop]

theorem c7_witness :
    (run_ops id c7_example c7_ops).2 = fifo_model (logical_list c7_example) c7_ops ∧
    (run_ops id c7_example c7_ops).2 = [1, 2, 3] :=
  ⟨c7_fifo_order id c7_ops c7_example (by decide) (by decide), by decide⟩

/-- Clearing an entry can only lower a `countP` that the cleared value fails. -/
theorem countP_set_le {β : Type} (p : β → Bool) (l : List β) (i : Nat) (x : β)
    (hx : p x = false) :
    (l.set i x).countP p ≤ l.countP p := by
  induction l generalizing i with
  | nil => simp
  | cons a t ih =>
    cases i with
    | zero =>
      simp only [List.set, List.countP_cons, hx]
      simp
    | succ j =>
      simp only [List.set, List.countP_cons]
      exact Nat.add_le_add_right (ih j) _

/-- Clearing an entry that satisfied the predicate with a value that fails it
lowers the count by exactly one. -/
theorem countP_set_true_false {β : Type} (p : β → Bool) (l : List β) (i : Nat) (x : β)
    (h : i < l.length) (hgetD : p (l.getD i x) = true) (hx : p x = false) :
    (l.set i x).countP p + 1 = l.countP p := by
  have hstep := countP_set p l i x h
  rw [if_pos hgetD, if_neg (by simp [hx])] at hstep
  omega

/-- `get_used_segments` only depends on the segment vector. -/
theorem used_congr (b b' : large_ring_buffer α)
    (h : b'.m_segments = b.m_segments) :
    get_used_segments b' = get_used_segments b := by
  unfold get_used_segments
  rw [h]

/-- Writing through a slot of an allocated segment changes no segment's
allocation status. -/
theorem set_item_getD_isEmpty_of_nonempty (b : large_ring_buffer α) (ii : Nat) (v : α)
    (hmat : (b.m_segments.getD (ii / b.m_segment_size) []).isEmpty = false) (k : Nat) :
    ((set_item b ii v).m_segments.getD k []).isEmpty
      = (b.m_segments.getD k []).isEmpty := by
  have hmm : materialize b ii = b := by
    unfold materialize
    rw [if_neg (by rw [hmat]; simp)]
  simp only [set_item, hmm]
  by_cases hk : k = ii / b.m_segment_size
  · subst hk
    rw [getD_set_self]
    split
    · rw [isEmpty_set]
    · rename_i hge
      rw [getD_of_le _ _ _ (Nat.le_of_not_lt hge)]
  · rw [getD_set_ne _ _ _ _ _ (fun hc => hk hc.symm)]

theorem remove_back_cases (b : large_ring_buffer α) :
    remove_unused_segments_back b = b ∨
    ∃ i, remove_unused_segments_back b
      = { b with m_segments := b.m_segments.set i [] } := by
  unfold remove_unused_segments_back
  by_cases h1 : can_remove_segments b = true
  · rw [if_pos h1]
    dsimp only
    by_cases h2 : increment_segment_end (b.m_end_index / b.m_segment_size)
        (b.m_max_size / b.m_segment_size) ≠ b.m_start_index / b.m_segment_size ∧
        (b.m_segments.getD (increment_segment_end (b.m_end_index / b.m_segment_size)
          (b.m_max_size / b.m_segment_size)) []).isEmpty = false
    · rw [if_pos h2]
      by_cases h3 : increment_segment_end (increment_segment_end
          (b.m_end_index / b.m_segment_size) (b.m_max_size / b.m_segment_size))
          (b.m_max_size / b.m_segment_size) ≠ b.m_start_index / b.m_segment_size ∧
          (b.m_segments.getD (increment_segment_end (increment_segment_end
            (b.m_end_index / b.m_segment_size) (b.m_max_size / b.m_segment_size))
            (b.m_max_size / b.m_segment_size)) []).isEmpty = false
      · rw [if_pos h3]
        exact Or.inr ⟨_, rfl⟩
      · rw [if_neg h3]
        exact Or.inl rfl
    · rw [if_neg h2]
      exact Or.inl rfl
  · rw [if_neg h1]
    exact Or.inl rfl

theorem remove_back_current (b : large_ring_buffer α) :
    (remove_unused_segments_back b).m_current_num_items = b.m_current_num_items := by
  rcases remove_back_cases b with h | ⟨i, h⟩ <;> rw [h]

/-- The strict-decrease half of the reclamation behavior: when a `pop_front`
crosses onto a segment boundary with more than one segment of slack, and
neither the segment two behind the new start segment nor the one in between
is the segment holding the end index, and both are allocated, exactly one
segment is reclaimed. -/
theorem pop_front_crossing_frees (ch : α → α) (b : large_ring_buffer α)
    (hss : 0 < b.m_segment_size)
    (hM : b.m_max_size = b.m_segments.length * b.m_segment_size)
    (hstart : b.m_start_index < b.m_max_size)
    (hfix : b.m_fixed_segment_allocation = false)
    (hcross : ((b.m_start_index + 1) % b.m_max_size) % b.m_segment_size = 0)
    (hfrontmat : (b.m_segments.getD (b.m_start_index / b.m_segment_size) []).isEmpty
      = false)
    (hcan : b.m_segment_size < b.m_max_size - (b.m_current_num_items - 1))
    (hg1 : decrement_segment_start
        (((b.m_start_index + 1) % b.m_max_size) / b.m_segment_size)
        (b.m_max_size / b.m_segment_size) ≠ b.m_end_index / b.m_segment_size)
    (hne1 : (b.m_segments.getD (decrement_segment_start
        (((b.m_start_index + 1) % b.m_max_size) / b.m_segment_size)
        (b.m_max_size / b.m_segment_size)) []).isEmpty = false)
    (hg2 : decrement_segment_start (decrement_segment_start
        (((b.m_start_index + 1) % b.m_max_size) / b.m_segment_size)
        (b.m_max_size / b.m_segment_size)) (b.m_max_size / b.m_segment_size)
        ≠ b.m_end_index / b.m_segment_size)
    (hne2 : (b.m_segments.getD (decrement_segment_start (decrement_segment_start
        (((b.m_start_index + 1) % b.m_max_size) / b.m_segment_size)
        (b.m_max_size / b.m_segment_size)) (b.m_max_size / b.m_segment_size))
        []).isEmpty = false) :
    get_used_segments (pop_front ch b) + 1 = get_used_segments b := by
  have hM0 : 0 < b.m_max_size := by omega
  set B3 : large_ring_buffer α :=
    { increment_start_index (clear_at ch b b.m_start_index) with
      m_current_num_items :=
        (increment_start_index (clear_at ch b b.m_start_index)).m_current_num_items - 1 }
    with hB3
  have hcore : pop_front ch b
      = if B3.m_fixed_segment_allocation = false ∧
          B3.m_start_index % B3.m_segment_size = 0 then
          remove_unused_segments_front B3
        else B3 := rfl
  have hb3segs : B3.m_segments = (clear_at ch b b.m_start_index).m_segments := rfl
  have hb3start : B3.m_start_index = (b.m_start_index + 1) % b.m_max_size := by
    rw [hB3]
    show (increment_start_index (clear_at ch b b.m_start_index)).m_start_index = _
    rw [increment_start_index_start]
    simp [clear_at]
    exact wrap_inc_eq_mod _ _ hstart
  have hb3end : B3.m_end_index = b.m_end_index := by
    rw [hB3]
    show (increment_start_index (clear_at ch b b.m_start_index)).m_end_index = _
    simp [clear_at]
  have hb3cur : B3.m_current_num_items = b.m_current_num_items - 1 := by
    rw [hB3]
    show (increment_start_index (clear_at ch b b.m_start_index)).m_current_num_items - 1
      = _
    simp [clear_at]
  have hb3M : B3.m_max_size = b.m_max_size := by
    rw [hB3]
    show (increment_start_index (clear_at ch b b.m_start_index)).m_max_size = _
    simp [clear_at]
  have hb3ss : B3.m_segment_size = b.m_segment_size := by
    rw [hB3]
    show (increment_start_index (clear_at ch b b.m_start_index)).m_segment_size = _
    simp [clear_at]
  have hb3fixed : B3.m_fixed_segment_allocation = b.m_fixed_segment_allocation := by
    rw [hB3]
    show (increment_start_index
      (clear_at ch b b.m_start_index)).m_fixed_segment_allocation = _
    simp [clear_at]
  have hb3len : B3.m_segments.length = b.m_segments.length := by
    rw [hb3segs]
    simp [clear_at]
  have hclear_empty : ∀ k,
      ((clear_at ch b b.m_start_index).m_segments.getD k []).isEmpty
        = (b.m_segments.getD k []).isEmpty :=
    set_item_getD_isEmpty_of_nonempty b _ _ hfrontmat
  have hbr : B3.m_fixed_segment_allocation = false ∧
      B3.m_start_index % B3.m_segment_size = 0 :=
    ⟨by rw [hb3fixed]; exact hfix, by rw [hb3start, hb3ss]; exact hcross⟩
  rw [hcore, if_pos hbr]
  have hfrees := remove_front_frees B3
    (by
      unfold can_remove_segments
      rw [hb3ss, hb3M, hb3cur]
      exact decide_eq_true hcan)
    (by rw [hb3start, hb3ss, hb3M, hb3end]; exact hg1)
    (by rw [hb3start, hb3ss, hb3M, hb3segs, hclear_empty]; exact hne1)
    (by rw [hb3start, hb3ss, hb3M, hb3end]; exact hg2)
    (by rw [hb3start, hb3ss, hb3M, hb3segs, hclear_empty]; exact hne2)
  rw [hfrees]
  have hIlt : decrement_segment_start (decrement_segment_start
      (B3.m_start_index / B3.m_segment_size) (B3.m_max_size / B3.m_segment_size))
      (B3.m_max_size / B3.m_segment_size) < B3.m_segments.length := by
    have hn : B3.m_max_size / B3.m_segment_size = b.m_segments.length := by
      rw [hb3M, hb3ss, hM]
      exact Nat.mul_div_cancel _ hss
    rw [hn, hb3len]
    apply decrement_segment_start_lt
    apply decrement_segment_start_lt
    rw [hb3start, hb3ss]
    exact slot_div_lt _ _ _ _ hM hss (Nat.mod_lt _ hM0)
  have hPI : (B3.m_segments.getD (decrement_segment_start (decrement_segment_start
      (B3.m_start_index / B3.m_segment_size) (B3.m_max_size / B3.m_segment_size))
      (B3.m_max_size / B3.m_segment_size)) []).isEmpty = false := by
    rw [hb3segs, hclear_empty, hb3start, hb3ss, hb3M]
    exact hne2
  have hstep := countP_set_true_false (fun segment => !segment.isEmpty) B3.m_segments
    (decrement_segment_start (decrement_segment_start
      (B3.m_start_index / B3.m_segment_size) (B3.m_max_size / B3.m_segment_size))
      (B3.m_max_size / B3.m_segment_size)) [] hIlt
    (by
      show (!(B3.m_segments.getD (decrement_segment_start (decrement_segment_start
        (B3.m_start_index / B3.m_segment_size) (B3.m_max_size / B3.m_segment_size))
        (B3.m_max_size / B3.m_segment_size)) []).isEmpty) = true
      rw [hPI]
      rfl) rfl
  have hused_b3 : get_used_segments B3 = get_used_segments b := by
    rw [used_congr (clear_at ch b b.m_start_index) B3 hb3segs]
    exact used_set_item_nonempty b _ _ hfrontmat
  show (B3.m_segments.set (decrement_segment_start (decrement_segment_start
      (B3.m_start_index / B3.m_segment_size) (B3.m_max_size / B3.m_segment_size))
      (B3.m_max_size / B3.m_segment_size)) []).countP (fun segment => !segment.isEmpty)
      + 1 = get_used_segments b
  rw [hstep]
  exact hused_b3

/-- A front pop only ever lowers the allocated-segment count when strictly
more than one segment of physical slots is unoccupied afterwards. -/
theorem pop_front_reclaim_needs_slack (ch : α → α) (b : large_ring_buffer α)
    (h : get_used_segments (pop_front ch b) < get_used_segments b) :
    b.m_segment_size < b.m_max_size - (pop_front ch b).m_current_num_items := by
  set B3 : large_ring_buffer α :=
    { increment_start_index (clear_at ch b b.m_start_index) with
      m_current_num_items :=
        (increment_start_index (clear_at ch b b.m_start_index)).m_current_num_items - 1 }
    with hB3
  have hcore : pop_front ch b
      = if B3.m_fixed_segment_allocation = false ∧
          B3.m_start_index % B3.m_segment_size = 0 then
          remove_unused_segments_front B3
        else B3 := rfl
  have hb3segs : B3.m_segments = (clear_at ch b b.m_start_index).m_segments := rfl
  have hb3cur : B3.m_current_num_items = b.m_current_num_items - 1 := by
    rw [hB3]
    show (increment_start_index (clear_at ch b b.m_start_index)).m_current_num_items - 1
      = _
    simp [clear_at]
  have hb3M : B3.m_max_size = b.m_max_size := by
    rw [hB3]
    show (increment_start_index (clear_at ch b b.m_start_index)).m_max_size = _
    simp [clear_at]
  have hb3ss : B3.m_segment_size = b.m_segment_size := by
    rw [hB3]
    show (increment_start_index (clear_at ch b b.m_start_index)).m_segment_size = _
    simp [clear_at]
  have hused_ge : get_used_segments b ≤ get_used_segments B3 := by
    rw [used_congr (clear_at ch b b.m_start_index) B3 hb3segs]
    exact used_set_item_ge b _ _
  rw [hcore] at h ⊢
  by_cases hbr : B3.m_fixed_segment_allocation = false ∧
      B3.m_start_index % B3.m_segment_size = 0
  · rw [if_pos hbr] at h ⊢
    by_cases hcr : can_remove_segments B3 = true
    · have h2 : B3.m_segment_size < B3.m_max_size - B3.m_current_num_items := by
        unfold can_remove_segments at hcr
        exact of_decide_eq_true hcr
      rw [hb3ss, hb3M] at h2
      rw [remove_front_current]
      exact h2
    · rw [remove_front_of_not_can B3 (Bool.eq_false_iff.mpr hcr)] at h
      omega
  · rw [if_neg hbr] at h ⊢
    omega

/-- A back pop only ever lowers the allocated-segment count when strictly
more than one segment of physical slots is unoccupied afterwards. -/
theorem pop_back_reclaim_needs_slack (ch : α → α) (b : large_ring_buffer α)
    (h : get_used_segments (pop_back ch b) < get_used_segments b) :
    b.m_segment_size < b.m_max_size - (pop_back ch b).m_current_num_items := by
  set B3 : large_ring_buffer α :=
    { decrement_end_index (clear_at ch b (before_end_index b)) with
      m_current_num_items :=
        (decrement_end_index (clear_at ch b (before_end_index b))).m_current_num_items
          - 1 }
    with hB3
  have hcore : pop_back ch b
      = if B3.m_fixed_segment_allocation = false ∧
          B3.m_end_index % B3.m_segment_size = 0 then
          remove_unused_segments_back B3
        else B3 := rfl
  have hb3segs : B3.m_segments = (clear_at ch b (before_end_index b)).m_segments := rfl
  have hb3cur : B3.m_current_num_items = b.m_current_num_items - 1 := by
    rw [hB3]
    show (decrement_end_index
      (clear_at ch b (before_end_index b))).m_current_num_items - 1 = _
    simp [clear_at]
  have hb3M : B3.m_max_size = b.m_max_size := by
    rw [hB3]
    show (decrement_end_index (clear_at ch b (before_end_index b))).m_max_size = _
    simp [clear_at]
  have hb3ss : B3.m_segment_size = b.m_segment_size := by
    rw [hB3]
    show (decrement_end_index (clear_at ch b (before_end_index b))).m_segment_size = _
    simp [clear_at]
  have hused_ge : get_used_segments b ≤ get_used_segments B3 := by
    rw [used_congr (clear_at ch b (before_end_index b)) B3 hb3segs]
    exact used_set_item_ge b _ _
  have hrm_used : get_used_segments (remove_unused_segments_back B3)
      ≤ get_used_segments B3 := by
    rcases remove_back_cases B3 with hc | ⟨i, hc⟩
    · rw [hc]
    · rw [hc]
      show (B3.m_segments.set i []).countP (fun segment => !segment.isEmpty)
        ≤ B3.m_segments.countP (fun segment => !segment.isEmpty)
      exact countP_set_le _ _ _ _ (by simp)
  rw [hcore] at h ⊢
  by_cases hbr : B3.m_fixed_segment_allocation = false ∧
      B3.m_end_index % B3.m_segment_size = 0
  · rw [if_pos hbr] at h ⊢
    by_cases hcr : can_remove_segments B3 = true
    · have h2 : B3.m_segment_size < B3.m_max_size - B3.m_current_num_items := by
        unfold can_remove_segments at hcr
        exact of_decide_eq_true hcr
      rw [hb3ss, hb3M] at h2
      rw [remove_back_current]
      exact h2
    · rw [remove_back_of_not_can B3 (Bool.eq_false_iff.mpr hcr)] at h
      omega
  · rw [if_neg hbr] at h ⊢
    omega

/-!  Concrete execution traces used to exhibit the `change_configuration`
segment-moving defect.  Starting from `discard_and_change_configuration(5, 2, 10)`
(five segments of two slots, logical capacity ten), a handful of pushes and one
`pop_front` put the occupied range at an offset; shrinking the configuration to
four items then moves three occupied segments into a two-segment array: the
third `new_segments[new_segment_index]` write is out of bounds in C++
(dropped by `List.set` in the model) and `m_end_index` is set to
`start mod segment_size + item_count`, which lands outside `[0, m_max_size)`. -/

def trace_config : large_ring_buffer Nat :=
  (discard_and_change_configuration (default_buffer Nat) 5 2 10 false false).1

def traceA_before : large_ring_buffer Nat :=
  pop_front id ([0, 1, 2, 3, 4].foldl (push_back id) trace_config)

def traceA_after : large_ring_buffer Nat :=
  change_configuration 8 id traceA_before 4 false false

def traceB_before : large_ring_buffer Nat :=
  pop_front id ([0, 1, 2, 3, 4, 5].foldl (push_back id) trace_config)

def traceB_after : large_ring_buffer Nat :=
  change_configuration 8 id traceB_before 4 false false

/-- C5: the claim says every public operation preserves
`item_count ≤ logical_capacity ≤ physical_capacity` and
`start_slot, end_slot ∈ [0, physical_capacity)`.  The code does not:
starting from a well-formed state with four items at offset one,
`change_configuration(4)` leaves `m_end_index = 5` with physical capacity 4
(and, in C++, performs an out-of-bounds `new_segments` write on the way).
The spec states the invariant as the intended behavior, so this is a defect
of the code. -/
theorem c5_change_configuration_breaks_invariant :
    WF traceA_before ∧
    traceA_after.m_max_size = 4 ∧
    traceA_after.m_end_index = 5 ∧
    ¬ traceA_after.m_end_index < traceA_after.m_max_size := by
  decide

/-- C1: the claim says an element that is neither evicted nor popped survives
any reconfiguration that keeps the segment size.  On the trace, the element
with value 4 is stored at logical index 3 before `change_configuration(4)`;
the reconfiguration keeps segment size 2 and evicts nothing (the new capacity
equals the item count), yet afterwards no slot of the buffer holds the value 4
at all: the segment holding it was dropped by the out-of-bounds move.  The
element (and hence any cached reference to it) is destroyed, contradicting
the reference-stability guarantee the spec and the repository's own tests
state as the design goal. -/
theorem c1_retained_element_destroyed :
    index_get traceA_before 3 = 4 ∧
    traceA_before.m_segment_size = 2 ∧
    traceA_after.m_segment_size = 2 ∧
    traceA_after.m_current_num_items = 4 ∧
    (4 : Nat) ∉ traceA_after.m_segments.flatten := by
  decide

/-- C9: the claim says `change_configuration` with a smaller capacity than the
item count evicts the excess from the back and leaves the retained
oldest-at-front items unchanged.  On the trace the items are `[1,2,3,4,5]`;
`change_configuration(4)` correctly pops the back item `5` and leaves
`size() = 4`, but the retained items then read `[1,2,3,0]` instead of
`[1,2,3,4]`: the segment holding the value 4 was lost to the out-of-bounds
segment move.  The eviction part of the claim holds, the retention part is a
code defect. -/
theorem c9_shrink_corrupts_retained_items :
    traceB_before.m_current_num_items = 5 ∧
    (List.range 5).map (index_get traceB_before) = [1, 2, 3, 4, 5] ∧
    traceB_after.m_current_num_items = 4 ∧
    (List.range 4).map (index_get traceB_after) = [1, 2, 3, 0] ∧
    (List.range 4).map (index_get traceB_after) ≠ [1, 2, 3, 4] := by
  decide

/-- C6: on a state satisfying the structural invariant, `to_internal_index`
resolves logical index `i < item_count` to the physical slot
`(start_slot + i) mod physical_capacity`, and indexed access returns the item
stored in that slot. -/
theorem c6_logical_index_resolves_mod (b : large_ring_buffer α) (i : Nat)
    (hwf : WF b) (hi : i < b.m_current_num_items) :
    to_internal_index b i = (b.m_start_index + i) % b.m_max_size ∧
    index_get b i = get_item b ((b.m_start_index + i) % b.m_max_size) := by
  obtain ⟨-, -, hstart, -, hcur, hmax, -⟩ := hwf
  have h := to_internal_index_eq_mod b i hstart (by omega)
  exact ⟨h, by rw [index_get, h]⟩

def c6_example : large_ring_buffer Nat :=
  ⟨[[10, 11], [12, 13]], 3, 1, 4, 2, 2, 4, false⟩

theorem c6_witness :
    to_internal_index c6_example 1 = (c6_example.m_start_index + 1) % c6_example.m_max_size ∧
    index_get c6_example 1
      = get_item c6_example ((c6_example.m_start_index + 1) % c6_example.m_max_size) :=
  c6_logical_index_resolves_mod c6_example 1 (by decide) (by decide)

/-- C4: bounds-checked access reports the range error exactly when
`i ≥ item_count`; on the error path the state is returned unmodified; for
`i < item_count` it returns the item at logical position `i`. -/
theorem c4_at_checks_bounds (b : large_ring_buffer α) (i : Nat) :
    ((at_item b i).2 = Except.error "Ring buffer index out of bounds."
        ↔ b.m_current_num_items ≤ i) ∧
    (b.m_current_num_items ≤ i → (at_item b i).1 = b) ∧
    (i < b.m_current_num_items → (at_item b i).2 = Except.ok (index_get b i)) := by
  unfold at_item
  by_cases h : i ≥ b.m_current_num_items
  · rw [if_pos h]
    exact ⟨⟨fun _ => h, fun _ => rfl⟩, fun _ => rfl, fun hc => absurd hc (by omega)⟩
  · rw [if_neg h]
    dsimp only
    refine ⟨⟨fun he => absurd he (by simp), fun hle => absurd hle (by omega)⟩,
      fun hle => absurd hle (by omega), fun _ => ?_⟩
    rw [get_item_materialize]
    rfl

def c4_example : large_ring_buffer Nat :=
  ⟨[[20, 21], [22, 23]], 1, 0, 4, 3, 2, 4, false⟩

theorem c4_witness :
    ((at_item c4_example 5).2 = Except.error "Ring buffer index out of bounds."
        ↔ c4_example.m_current_num_items ≤ 5) ∧
    (c4_example.m_current_num_items ≤ 5 → (at_item c4_example 5).1 = c4_example) ∧
    (5 < c4_example.m_current_num_items →
        (at_item c4_example 5).2 = Except.ok (index_get c4_example 5)) :=
  c4_at_checks_bounds c4_example 5

/-- C10: a buffer with zero physical capacity (default constructed, or
discard-configured with a zero segment size or zero maximum item count) is
`empty()` and not `full()`: `full()` requires `m_max_size` nonzero even though
`m_current_num_items = m_max_num_items = 0` there. -/
theorem c10_zero_capacity_not_full :
    (empty (default_buffer α) = true ∧ full (default_buffer α) = false) ∧
    (∀ (b : large_ring_buffer α) (n s m : Nat) (f p : Bool), s = 0 ∨ m = 0 →
      empty (discard_and_change_configuration b n s m f p).1 = true ∧
      full (discard_and_change_configuration b n s m f p).1 = false ∧
      (discard_and_change_configuration b n s m f p).1.m_max_size = 0 ∧
      (discard_and_change_configuration b n s m f p).1.m_current_num_items
        = (discard_and_change_configuration b n s m f p).1.m_max_num_items) ∧
    (∀ b : large_ring_buffer α, b.m_max_size = 0 → full b = false) := by
  refine ⟨⟨rfl, rfl⟩, fun b n s m f p h => ?_, fun b h => ?_⟩
  · unfold discard_and_change_configuration
    rw [if_pos h]
    exact ⟨rfl, rfl, rfl, rfl⟩
  · unfold full
    rw [h]
    simp

theorem c10_witness :
    empty (discard_and_change_configuration (default_buffer Nat) 3 0 7 false false).1 = true ∧
    full (discard_and_change_configuration (default_buffer Nat) 3 0 7 false false).1 = false ∧
    (discard_and_change_configuration (default_buffer Nat) 3 0 7 false false).1.m_max_size = 0 ∧
    (discard_and_change_configuration (default_buffer Nat) 3 0 7 false false).1.m_current_num_items
      = (discard_and_change_configuration (default_buffer Nat) 3 0 7 false false).1.m_max_num_items :=
  (c10_zero_capacity_not_full (α := Nat)).2.1 (default_buffer Nat) 3 0 7 false false (Or.inl rfl)

/-- A configured buffer holding one item, used to exhibit the mutation that
`discard_and_change_configuration` performs before throwing. -/
def c3_example : large_ring_buffer Nat :=
  ⟨[[5, 6]], 0, 1, 2, 1, 2, 2, false⟩

/-- C3 counterexample: the claim says the buffer is left unmodified when the
requested capacity exceeds `segment_count * segment_size`.  The source wipes
all members (line 466..473) before performing the validity check (line 484)
and throwing, so the error path does mutate: a buffer holding one item is left
empty and unconfigured. -/
theorem c3_counterexample_error_path_mutates :
    (discard_and_change_configuration c3_example 1 2 3 false false).2 = true ∧
    (discard_and_change_configuration c3_example 1 2 3 false false).1 ≠ c3_example ∧
    (discard_and_change_configuration c3_example 1 2 3 false false).1.m_current_num_items = 0 := by
  decide

/-- C3 amended: with a nonzero segment size and a requested maximum item count
exceeding (effective) `segment_count * segment_size`, the call reports the
recoverable invalid-argument error, and the buffer is left in the discarded
state: all items destroyed and the configuration reset to zero capacity, with
the requested fixed-allocation flag — not unmodified. -/
theorem c3_invalid_configuration_reports_error (b : large_ring_buffer α)
    (n s m : Nat) (f p : Bool) (hs : ¬ s = 0)
    (hex : m > (if n = 0 then m / s + (if m % s ≠ 0 then 1 else 0) else n) * s) :
    (discard_and_change_configuration b n s m f p).2 = true ∧
    (discard_and_change_configuration b n s m f p).1 = ⟨[], 0, 0, 0, 0, 0, 0, f⟩ := by
  have hm : ¬ m = 0 := by
    intro h0
    rw [h0] at hex
    omega
  unfold discard_and_change_configuration
  rw [if_neg (by tauto)]
  dsimp only
  rw [if_pos hex]
  exact ⟨rfl, rfl⟩

theorem c3_witness :
    (discard_and_change_configuration (default_buffer Nat) 1 2 5 true false).2 = true ∧
    (discard_and_change_configuration (default_buffer Nat) 1 2 5 true false).1
      = ⟨[], 0, 0, 0, 0, 0, 0, true⟩ :=
  c3_invalid_configuration_reports_error (default_buffer Nat) 1 2 5 true false
    (by decide) (by decide)

/-!  A reclamation trace: fill the ten-slot, five-segment configuration, then
drain four items (more than one segment's worth) from the front.  The end
index sits at slot 0, so the end segment index is 0; the guards in
`remove_unused_segments_front` compare candidate segments against it and both
candidates eventually hit it, so no segment is ever freed even though
segments 0 and 1 hold no live items. -/

def traceC_full : large_ring_buffer Nat :=
  [0, 1, 2, 3, 4, 5, 6, 7, 8, 9].foldl (push_back id) trace_config

def traceC_drained : large_ring_buffer Nat :=
  pop_front id (pop_front id (pop_front id (pop_front id traceC_full)))

/-- C8 counterexample: the claim says that draining more than `segment_size`
consecutive items from one end strictly decreases `used_segments()`, with only
the segment adjacent to the active boundary retained.  On this trace four
items (twice `segment_size`) are drained from the front of a full ten-slot
buffer, yet the allocated-segment count stays at five: segment 0 holds no
live item and is not the segment adjacent to the start boundary (that is
segment 1), but it is never freed, because the reclamation guards refuse to
free the segment holding the end index (here segment 0) and anything past
it, and each call frees at most one segment. -/
theorem c8_counterexample_drain_keeps_dead_segment :
    traceC_full.m_segment_size = 2 ∧
    traceC_full.m_current_num_items = 10 ∧
    traceC_drained.m_current_num_items = 6 ∧
    get_used_segments traceC_full = 5 ∧
    get_used_segments traceC_drained = 5 ∧
    traceC_drained.m_fixed_segment_allocation = false ∧
    (traceC_drained.m_segments.getD 0 []).isEmpty = false ∧
    decrement_segment_start
        (traceC_drained.m_start_index / traceC_drained.m_segment_size)
        (traceC_drained.m_max_size / traceC_drained.m_segment_size) ≠ 0 ∧
    (∀ k, k < traceC_drained.m_current_num_items →
      ((traceC_drained.m_start_index + k) % traceC_drained.m_max_size)
        / traceC_drained.m_segment_size ≠ 0) := by
  decide

/-- C8 amended: reclamation is guarded, not automatic.  (1) When a front pop
crosses onto a segment boundary with more than one segment of slack and the
two reclamation candidates (the segment two steps behind the new start
segment, and the one behind that) are allocated and distinct from the segment
holding the end index, the allocated-segment count drops by exactly one.
(2)/(3) In every case, a front or back pop lowers the allocated-segment count
only when strictly more than one segment of physical slots is unoccupied
afterwards (`physical_capacity - item_count > segment_size`). -/
theorem c8_segment_reclamation_guarded :
    (∀ (ch : α → α) (b : large_ring_buffer α),
      0 < b.m_segment_size →
      b.m_max_size = b.m_segments.length * b.m_segment_size →
      b.m_start_index < b.m_max_size →
      b.m_fixed_segment_allocation = false →
      ((b.m_start_index + 1) % b.m_max_size) % b.m_segment_size = 0 →
      (b.m_segments.getD (b.m_start_index / b.m_segment_size) []).isEmpty = false →
      b.m_segment_size < b.m_max_size - (b.m_current_num_items - 1) →
      decrement_segment_start
          (((b.m_start_index + 1) % b.m_max_size) / b.m_segment_size)
          (b.m_max_size / b.m_segment_size) ≠ b.m_end_index / b.m_segment_size →
      (b.m_segments.getD (decrement_segment_start
          (((b.m_start_index + 1) % b.m_max_size) / b.m_segment_size)
          (b.m_max_size / b.m_segment_size)) []).isEmpty = false →
      decrement_segment_start (decrement_segment_start
          (((b.m_start_index + 1) % b.m_max_size) / b.m_segment_size)
          (b.m_max_size / b.m_segment_size)) (b.m_max_size / b.m_segment_size)
          ≠ b.m_end_index / b.m_segment_size →
      (b.m_segments.getD (decrement_segment_start (decrement_segment_start
          (((b.m_start_index + 1) % b.m_max_size) / b.m_segment_size)
          (b.m_max_size / b.m_segment_size)) (b.m_max_size / b.m_segment_size))
          []).isEmpty = false →
      get_used_segments (pop_front ch b) + 1 = get_used_segments b) ∧
    (∀ (ch : α → α) (b : large_ring_buffer α),
      get_used_segments (pop_front ch b) < get_used_segments b →
      b.m_segment_size < b.m_max_size - (pop_front ch b).m_current_num_items) ∧
    (∀ (ch : α → α) (b : large_ring_buffer α),
      get_used_segments (pop_back ch b) < get_used_segments b →
      b.m_segment_size < b.m_max_size - (pop_back ch b).m_current_num_items) :=
  ⟨fun ch b hss hM hstart hfix hcross hfrontmat hcan hg1 hne1 hg2 hne2 =>
    pop_front_crossing_frees ch b hss hM hstart hfix hcross hfrontmat hcan
      hg1 hne1 hg2 hne2,
   fun ch b h => pop_front_reclaim_needs_slack ch b h,
   fun ch b h => pop_back_reclaim_needs_slack ch b h⟩

/-- A full five-segment buffer whose start index sits on the last segment
boundary, so the next front pop crosses a boundary and reclaims. -/
def c8_example : large_ring_buffer Nat :=
  ⟨[[0, 1], [2, 3], [4, 5], [6, 7], [8, 9]], 5, 0, 10, 5, 2, 10, false⟩

theorem c8_witness :
    get_used_segments (pop_front id c8_example) + 1 = get_used_segments c8_example :=
  (c8_segment_reclamation_guarded (α := Nat)).1 id c8_example (by decide) (by decide)
    (by decide) (by decide) (by decide) (by decide) (by decide) (by decide)
    (by decide) (by decide) (by decide)

end cpplargeringbuffer
